import Mathlib

/-!
# Alias resolution in `cmd/protoc-gen-go/main.go`

A shallow embedding of `getAliasType` and of the alias-resolution pass that the
plugin callback in `main` runs over every generated file.

Go pointers are modelled by addresses into object stores:

* `*protogen.Message` is a `MsgId`, an address into `Env.msgs`;
* `*descriptorpb.DescriptorProto` is a `RawId`, an address into `Env.raws`;
* a `*protogen.Field` is owned by exactly one message (protogen allocates one
  per declared field), so fields are stored inside their message and addressed
  by `(message, index)`; the same holds for raw fields inside a raw message.

A `nil` pointer is `none`. An address outside a store reads as the zero value
and cannot be written.
-/

namespace AliasResolution

/-! ## Data model -/

/-- Address of a `protogen.Message` object. -/
abbrev MsgId := Nat

/-- Address of a `descriptorpb.DescriptorProto` object. -/
abbrev RawId := Nat

/-- Modelled from the spec: `protoreflect.Kind` is declared outside src/; it is
an `int8` enumeration whose numbers coincide with the wire type codes. -/
abbrev Kind := Int

/-- Modelled from the spec: `protoreflect.Cardinality` is declared outside
src/; it is an `int8` enumeration. -/
abbrev Cardinality := Int

def Int32Kind : Kind := 5
def GroupKind : Kind := 10
def MessageKind : Kind := 11
def EnumKind : Kind := 14

def Optional : Cardinality := 1
def Required : Cardinality := 2
def Repeated : Cardinality := 3

/-- Modelled from the spec: `protogen.GoIdent` is declared outside src/; a Go
identifier together with its import path. -/
structure GoIdent where
  GoName : String
  GoImportPath : String
  deriving DecidableEq, Repr, Inhabited

/-- Modelled from the spec: `descriptorpb.FieldOptions` is declared outside
src/; the options bag of a field in its serializable form. -/
structure FieldOptions where
  Deprecated : Bool
  Packed : Option Bool
  Uninterpreted : List String
  deriving DecidableEq, Repr, Inhabited

/-- Modelled from the spec: the default value record of `filedesc.Field`,
declared outside src/. -/
structure DefaultValue where
  has : Bool
  val : String
  deriving DecidableEq, Repr, Inhabited

/-- Modelled from the spec: the edition feature flags of `filedesc.Field`,
declared outside src/. -/
structure EditionFeatures where
  IsFieldPresence : Bool
  IsLegacyRequired : Bool
  IsPacked : Bool
  IsUTF8Validated : Bool
  IsDelimitedEncoded : Bool
  deriving DecidableEq, Repr, Inhabited

/-- Modelled from the spec: `protogen.Enum` is declared outside src/; an enum
is never written by the pass, so a reference to it is its identity. -/
structure EnumRef where
  GoIdent : GoIdent
  FullName : String
  deriving DecidableEq, Repr, Inhabited

/-- Modelled from the spec: the `L1` record of `filedesc.Field`, declared
outside src/, restricted to the members `main` reads or writes. The descriptor
references `Enum` and `Message` are given by the qualified name of their
target. -/
structure FieldL1 where
  Options : Option FieldOptions
  Cardinality : Cardinality
  Kind : Kind
  IsProto3Optional : Bool
  Default : DefaultValue
  EditionFeatures : EditionFeatures
  Enum : Option String
  Message : Option String
  deriving DecidableEq, Repr, Inhabited

/-- Modelled from the spec: `protogen.Field` is declared outside src/. `Desc`
is the `L1` record of the `*filedesc.Field` behind `field.Desc`; `Alias` holds
the identifier that the Go pointer `&field.Message.GoIdent` points at. -/
structure Field where
  GoName : String
  Desc : FieldL1
  Message : Option MsgId
  Enum : Option EnumRef
  Oneof : Option Nat
  Alias : Option GoIdent
  deriving DecidableEq, Repr, Inhabited

/-- Modelled from the spec: `protogen.Message` is declared outside src/.
`Leading` is `Comments.Leading`, `FullName` is `Desc.FullName()`, `Messages`
are the nested message declarations. -/
structure Message where
  GoIdent : GoIdent
  FullName : String
  Leading : String
  Fields : List Field
  Messages : List MsgId
  deriving DecidableEq, Repr, Inhabited

/-- Modelled from the spec: `descriptorpb.FieldDescriptorProto` is declared
outside src/. `Type_` is the optional type code (the Go member `Type`),
`TypeName` the optional type-name reference. -/
structure FieldDescriptorProto where
  Name : String
  Type_ : Option Int
  TypeName : Option String
  Options : Option FieldOptions
  deriving DecidableEq, Repr, Inhabited

/-- Modelled from the spec: `descriptorpb.DescriptorProto` is declared outside
src/. -/
structure DescriptorProto where
  Name : String
  Field : List FieldDescriptorProto
  deriving DecidableEq, Repr, Inhabited

/-- Modelled from the spec: `descriptorpb.FileDescriptorProto` is declared
outside src/. -/
structure FileDescriptorProto where
  MessageType : List RawId
  deriving DecidableEq, Repr, Inhabited

/-- Modelled from the spec: `protogen.File` is declared outside src/. -/
structure File where
  Generate : Bool
  Messages : List MsgId
  Aliases : List MsgId
  Proto : FileDescriptorProto
  deriving DecidableEq, Repr, Inhabited

/-- The objects reachable through pointers: every `protogen.Message` and every
raw `DescriptorProto` known to the plugin. -/
structure Env where
  msgs : List Message
  raws : List DescriptorProto
  deriving DecidableEq, Repr, Inhabited

/-- Read through a `*protogen.Message`. -/
def Env.msg (e : Env) (p : MsgId) : Message := e.msgs.getD p default

/-- Read through a `*descriptorpb.DescriptorProto`. -/
def Env.raw (e : Env) (p : RawId) : DescriptorProto := e.raws.getD p default

/-! ## `getAliasType` -/

/-- The marker searched for in the leading comment. -/
def aliasMarker : String := "protobuf:alias"

/-- Go `strings.Contains`: whether `substr` occurs in `s`. -/
def stringsContains (s substr : String) : Bool :=
  decide (substr.data <:+: s.data)

/-- The function `getAliasType` of `main.go`. The result is the field
`msg.Fields[0]` as it is at the time of the call. -/
def getAliasType (e : Env) (msg : Option MsgId) : Option Field :=
  match msg with
  | none => none
  | some p =>
    if !stringsContains (e.msg p).Leading aliasMarker then none
    else if (e.msg p).Fields.length ≠ 1 then none
    else (e.msg p).Fields[0]?

/-! ## The resolution pass of `main` -/

/-- Write through a `*protogen.Message`. -/
def Env.setMsg (e : Env) (p : MsgId) (m : Message) : Env :=
  { e with msgs := e.msgs.set p m }

/-- Write through a `*descriptorpb.DescriptorProto`. -/
def Env.setRaw (e : Env) (p : RawId) (m : DescriptorProto) : Env :=
  { e with raws := e.raws.set p m }

/-- The conversion `descriptorpb.FieldDescriptorProto_Type(k)` of an `int8`
kind to the `int32` type code: the number is kept. -/
def FieldDescriptorProto_Type (k : Kind) : Int := k

/-- Lines 80-94 of `main.go`: the assignments to `fieldDesc.L1` and to `field`,
where `ident` is what `&field.Message.GoIdent` points at. -/
def rewriteField (field aliasField : Field) (ident : Option GoIdent) : Field :=
  { field with
    Desc := { field.Desc with
      Options := aliasField.Desc.Options
      Cardinality := aliasField.Desc.Cardinality
      Kind := aliasField.Desc.Kind
      IsProto3Optional := aliasField.Desc.IsProto3Optional
      Default := aliasField.Desc.Default
      EditionFeatures := aliasField.Desc.EditionFeatures
      Enum := none
      Message := none }
    Alias := ident
    Message := none
    Oneof := none
    Enum := none }

/-- Lines 96-102 of `main.go`: the assignments to the raw field `fd`. -/
def syncRawField (fieldDesc : FieldL1) (fd : FieldDescriptorProto) :
    FieldDescriptorProto :=
  let kind := FieldDescriptorProto_Type fieldDesc.Kind
  let fd1 := { fd with Type_ := some kind, TypeName := none }
  match fieldDesc.Options with
  | some opts => { fd1 with Options := some opts }
  | none => fd1

/-- Lines 75-102 of `main.go`: the body of the loop over `msg.Fields`, at field
index `fieldIdx` of the message `msg` found at index `msgIdx` of `f.Messages`.
`none` is the run-time panic of an index out of range. -/
def fieldBody (f : File) (msgIdx : Nat) (msg : MsgId) (fieldIdx : Nat) (e : Env) :
    Option Env :=
  match (e.msg msg).Fields[fieldIdx]? with
  | none => some e
  | some field =>
    match getAliasType e field.Message with
    | none => some e
    | some aliasField =>
      let field1 := rewriteField field aliasField
        (field.Message.map fun a => (e.msg a).GoIdent)
      let e1 := e.setMsg msg
        { e.msg msg with Fields := (e.msg msg).Fields.set fieldIdx field1 }
      match f.Proto.MessageType[msgIdx]? with
      | none => none
      | some r =>
        match (e1.raw r).Field[fieldIdx]? with
        | none => none
        | some fd =>
          some (e1.setRaw r
            { e1.raw r with
              Field := (e1.raw r).Field.set fieldIdx (syncRawField field1.Desc fd) })

/-- Line 74 of `main.go`: the loop over `msg.Fields`, with `n` fields left to
visit from index `fieldIdx` on. -/
def fieldLoop (f : File) (msgIdx : Nat) (msg : MsgId) : Nat → Nat → Env → Option Env
  | 0, _, e => some e
  | n + 1, fieldIdx, e =>
    match fieldBody f msgIdx msg fieldIdx e with
    | none => none
    | some e1 => fieldLoop f msgIdx msg n (fieldIdx + 1) e1

/-- The variables of the loop over `f.Messages`: the objects, `f.Aliases`,
`keepMessages` and `keepMessageTypes`. -/
structure LoopState where
  env : Env
  Aliases : List MsgId
  keepMessages : List MsgId
  keepMessageTypes : List RawId
  deriving DecidableEq, Repr, Inhabited

/-- Lines 69-106 of `main.go`: the body of the loop over `f.Messages`. -/
def msgBody (f : File) (msgIdx : Nat) (msg : MsgId) (s : LoopState) :
    Option LoopState :=
  if (getAliasType s.env (some msg)).isSome then
    some { s with Aliases := s.Aliases ++ [msg] }
  else
    match fieldLoop f msgIdx msg (s.env.msg msg).Fields.length 0 s.env with
    | none => none
    | some e1 =>
      match f.Proto.MessageType[msgIdx]? with
      | none => none
      | some r =>
        some { env := e1
               Aliases := s.Aliases
               keepMessages := s.keepMessages ++ [msg]
               keepMessageTypes := s.keepMessageTypes ++ [r] }

/-- Line 68 of `main.go`: the loop over `f.Messages`, with the messages `msgs`
left to visit from index `msgIdx` on. -/
def msgLoop (f : File) : List MsgId → Nat → LoopState → Option LoopState
  | [], _, s => some s
  | msg :: rest, msgIdx, s =>
    match msgBody f msgIdx msg s with
    | none => none
    | some s1 => msgLoop f rest (msgIdx + 1) s1

/-- Lines 65-109 of `main.go`: the resolution pass on one file. The result is
the objects and the file after the pass, `none` when the pass panics. -/
def resolveFile (e : Env) (f : File) : Option (Env × File) :=
  match msgLoop f f.Messages 0
      { env := e, Aliases := f.Aliases, keepMessages := [], keepMessageTypes := [] } with
  | none => none
  | some s =>
    some (s.env,
      { f with
        Messages := s.keepMessages
        Aliases := s.Aliases
        Proto := { MessageType := s.keepMessageTypes } })

/-- Lines 63-113 of `main.go`: the loop over `gen.Files`; only files marked
`Generate` are resolved. -/
def filesLoop : List File → Env → Option (Env × List File)
  | [], e => some (e, [])
  | f :: rest, e =>
    if f.Generate then
      match resolveFile e f with
      | none => none
      | some (e1, f1) =>
        match filesLoop rest e1 with
        | none => none
        | some (e2, rest1) => some (e2, f1 :: rest1)
    else
      match filesLoop rest e with
      | none => none
      | some (e2, rest1) => some (e2, f :: rest1)

/-! ## The pass described without state -/

/-- What the pass makes of a field: the field itself unless its message is an
alias, in which case the attributes of the payload are copied onto it. -/
def rewriteOf (e : Env) (field : Field) : Field :=
  match getAliasType e field.Message with
  | none => field
  | some aliasField =>
    rewriteField field aliasField (field.Message.map fun a => (e.msg a).GoIdent)

/-- Whether a message is an alias. -/
def isAlias (e : Env) (p : MsgId) : Bool := (getAliasType e (some p)).isSome

/-- What the pass makes of a surviving message. -/
def resolvedMsg (e : Env) (m : Message) : Message :=
  { m with Fields := m.Fields.map (rewriteOf e) }

/-- What the pass makes of the raw fields of a surviving message with the
fields `fields`. -/
def syncFields (e : Env) : List Field → List FieldDescriptorProto →
    List FieldDescriptorProto
  | field :: fields, fd :: fds =>
    (match getAliasType e field.Message with
      | none => fd
      | some _ => syncRawField (rewriteOf e field).Desc fd) :: syncFields e fields fds
  | _, fds => fds

/-- What the pass makes of the raw message of a surviving message. -/
def syncedRaw (e : Env) (fields : List Field) (rm : DescriptorProto) :
    DescriptorProto :=
  { rm with Field := syncFields e fields rm.Field }

/-- The result of the callback that `main` passes to `protogen.Options.Run`:
it returns `nil` with the objects and files as they are then, returns an error,
or panics. -/
inductive Outcome where
  | ok (e : Env) (files : List File)
  | error (msg : String)
  | panic
  deriving DecidableEq, Repr

/-- Lines 58-118 of `main.go`: the callback, on the value of the flag `plugins`
and on the objects and files of the plugin. The generator called at line 111
and the feature ranges of lines 114-116 are outside the model. -/
def callback (plugins : String) (e : Env) (files : List File) : Outcome :=
  if plugins ≠ "" then
    Outcome.error "protoc-gen-go: plugins are not supported"
  else
    match filesLoop files e with
    | none => Outcome.panic
    | some (e1, files1) => Outcome.ok e1 files1

/-! ## Auxiliary definitions for the proofs -/

/-- What one visit of a field makes of the raw field at the same index. -/
def rawStep (e : Env) (field : Option Field) (fd : FieldDescriptorProto) :
    FieldDescriptorProto :=
  match field with
  | none => fd
  | some x =>
    match getAliasType e x.Message with
    | none => fd
    | some _ => syncRawField (rewriteOf e x).Desc fd

/-- The parts of a message other than its fields. -/
def sameHeader (m m1 : Message) : Prop :=
  m1.GoIdent = m.GoIdent ∧ m1.FullName = m.FullName ∧ m1.Leading = m.Leading ∧
    m1.Messages = m.Messages

/-- The paired entries that the filter keeps, projected on the raw side. -/
def keptRaws (e : Env) (msgs : List MsgId) (raws : List RawId) : List RawId :=
  ((msgs.zip raws).filter fun x => !isAlias e x.1).map Prod.snd

/-- The initial variables of the loop over `f.Messages`. -/
def initState (e : Env) (f : File) : LoopState :=
  { env := e, Aliases := f.Aliases, keepMessages := [], keepMessageTypes := [] }

/-- The environment `e1` differs from `e` at most in the fields of messages that
are not aliases, and keeps their number. -/
structure Stable (e e1 : Env) : Prop where
  goIdent : ∀ p, (e1.msg p).GoIdent = (e.msg p).GoIdent
  leading : ∀ p, (e1.msg p).Leading = (e.msg p).Leading
  len : ∀ p, (e1.msg p).Fields.length = (e.msg p).Fields.length
  fixed : ∀ p, isAlias e p = true → e1.msg p = e.msg p

/-! ## Definitions for the claims -/

/-- The `int32`, optional payload of the scenario of the specification. -/
def int32Desc : FieldL1 :=
  { Options := none
    Cardinality := Optional
    Kind := Int32Kind
    IsProto3Optional := false
    Default := { has := false, val := "" }
    EditionFeatures := default
    Enum := none
    Message := none }

/-- The field `value` of `Wrapper`. -/
def wrapperValue : Field :=
  { GoName := "Value", Desc := int32Desc, Message := none, Enum := none,
    Oneof := none, Alias := none }

/-- The identifier of `Wrapper`. -/
def wrapperIdent : GoIdent := { GoName := "Wrapper", GoImportPath := "example/pb" }

/-- The message `Wrapper`, stored at address 0: marked as an alias, with the
single field `value`. -/
def wrapperMsg : Message :=
  { GoIdent := wrapperIdent
    FullName := "pb.Wrapper"
    Leading := " protobuf:alias\n"
    Fields := [wrapperValue]
    Messages := [] }

/-- The field `w` of `Holder`, of kind message, referencing `Wrapper`. -/
def holderW : Field :=
  { GoName := "W"
    Desc := { int32Desc with Kind := MessageKind, Message := some "pb.Wrapper" }
    Message := some 0
    Enum := none
    Oneof := none
    Alias := none }

/-- The message `Holder`, stored at address 1. -/
def holderMsg : Message :=
  { GoIdent := { GoName := "Holder", GoImportPath := "example/pb" }
    FullName := "pb.Holder"
    Leading := " Holder keeps a wrapper.\n"
    Fields := [holderW]
    Messages := [] }

/-- The objects of the Wrapper/Holder scenario. -/
def scenarioEnv : Env :=
  { msgs := [wrapperMsg, holderMsg]
    raws :=
      [{ Name := "Wrapper"
         Field := [{ Name := "value", Type_ := some 5, TypeName := none,
                     Options := none }] },
       { Name := "Holder"
         Field := [{ Name := "w", Type_ := some 11, TypeName := some "pb.Wrapper",
                     Options := none }] }] }

/-- The file of the Wrapper/Holder scenario. -/
def scenarioFile : File :=
  { Generate := true, Messages := [0, 1], Aliases := [],
    Proto := { MessageType := [0, 1] } }

/-- The field `w` of `Holder` after the pass. -/
def holderW1 : Field :=
  { GoName := "W", Desc := int32Desc, Message := none, Enum := none,
    Oneof := none, Alias := some wrapperIdent }

/-- The objects of the Wrapper/Holder scenario after the pass. -/
def scenarioEnv1 : Env :=
  { msgs := [wrapperMsg, { holderMsg with Fields := [holderW1] }]
    raws :=
      [{ Name := "Wrapper"
         Field := [{ Name := "value", Type_ := some 5, TypeName := none,
                     Options := none }] },
       { Name := "Holder"
         Field := [{ Name := "w", Type_ := some 5, TypeName := none,
                     Options := none }] }] }

/-- The file of the Wrapper/Holder scenario after the pass. -/
def scenarioFile1 : File :=
  { Generate := true, Messages := [1], Aliases := [0],
    Proto := { MessageType := [1] } }

/-- Index-aligned mirrors: the file lists as many raw messages as messages, and
each message has as many fields as the raw message at the same index. -/
def Aligned (e : Env) (f : File) : Prop :=
  f.Messages.length = f.Proto.MessageType.length ∧
  ∀ x ∈ f.Messages.zip f.Proto.MessageType,
    (e.msg x.1).Fields.length = (e.raw x.2).Field.length

instance instDecidableAligned (e : Env) (f : File) : Decidable (Aligned e f) :=
  inferInstanceAs (Decidable (_ ∧ _))

/-- The consistency of a raw field with the kind of its field, in the words of
the specification (testable property 4): for a scalar kind the raw type code is
the code of that scalar, the number of the kind; for a message kind (groups
included) or an enum kind the raw type-name reference is present and is the
qualified name of the target of the field. -/
def specConsistent (e : Env) (F : Field) (fd : FieldDescriptorProto) : Bool :=
  if F.Desc.Kind = MessageKind ∨ F.Desc.Kind = GroupKind then
    match F.Message with
    | some a => fd.TypeName == some (e.msg a).FullName
    | none => false
  else if F.Desc.Kind = EnumKind then
    match F.Enum with
    | some en => fd.TypeName == some en.FullName
    | none => false
  else fd.Type_ == some F.Desc.Kind

/-- Consistent mirrors: every raw field of the file is consistent with the field
at the same position. -/
def Consistent (e : Env) (f : File) : Prop :=
  ∀ x ∈ f.Messages.zip f.Proto.MessageType,
    ∀ y ∈ (e.msg x.1).Fields.zip (e.raw x.2).Field, specConsistent e y.1 y.2 = true

instance instDecidableConsistent (e : Env) (f : File) : Decidable (Consistent e f) :=
  inferInstanceAs (Decidable (∀ x ∈ _, _))

/-- A kind that is neither message, group nor enum. -/
def scalarKind (k : Kind) : Prop := k ≠ MessageKind ∧ k ≠ GroupKind ∧ k ≠ EnumKind

/-- The field `n` of `Inner`. -/
def innerN : Field :=
  { GoName := "N", Desc := int32Desc, Message := none, Enum := none,
    Oneof := none, Alias := none }

/-- An ordinary message `Inner`, stored at address 0. -/
def innerMsg : Message :=
  { GoIdent := { GoName := "Inner", GoImportPath := "example/pb" }
    FullName := "pb.Inner"
    Leading := ""
    Fields := [innerN]
    Messages := [] }

/-- The payload of `InnerAlias`: a field of kind message referencing `Inner`. -/
def innerAliasValue : Field :=
  { GoName := "Value"
    Desc := { int32Desc with Kind := MessageKind, Message := some "pb.Inner" }
    Message := some 0
    Enum := none
    Oneof := none
    Alias := none }

/-- The alias `InnerAlias` of a message-typed payload, stored at address 1. -/
def innerAliasMsg : Message :=
  { GoIdent := { GoName := "InnerAlias", GoImportPath := "example/pb" }
    FullName := "pb.InnerAlias"
    Leading := " protobuf:alias\n"
    Fields := [innerAliasValue]
    Messages := [] }

/-- The field `w` of `Outer`, referencing `InnerAlias`. -/
def outerW : Field :=
  { GoName := "W"
    Desc := { int32Desc with Kind := MessageKind, Message := some "pb.InnerAlias" }
    Message := some 1
    Enum := none
    Oneof := none
    Alias := none }

/-- The message `Outer`, stored at address 2. -/
def outerMsg : Message :=
  { GoIdent := { GoName := "Outer", GoImportPath := "example/pb" }
    FullName := "pb.Outer"
    Leading := ""
    Fields := [outerW]
    Messages := [] }

/-- The objects of a file in which the payload of an alias is message-typed. -/
def nestedEnv : Env :=
  { msgs := [innerMsg, innerAliasMsg, outerMsg]
    raws :=
      [{ Name := "Inner"
         Field := [{ Name := "n", Type_ := some 5, TypeName := none,
                     Options := none }] },
       { Name := "InnerAlias"
         Field := [{ Name := "value", Type_ := some 11, TypeName := some "pb.Inner",
                     Options := none }] },
       { Name := "Outer"
         Field := [{ Name := "w", Type_ := some 11,
                     TypeName := some "pb.InnerAlias", Options := none }] }] }

/-- The file in which the payload of an alias is message-typed. -/
def nestedFile : File :=
  { Generate := true, Messages := [0, 1, 2], Aliases := [],
    Proto := { MessageType := [0, 1, 2] } }

/-- The field `w` of `Outer` after the pass: of kind message, without message. -/
def outerW1 : Field :=
  { GoName := "W"
    Desc := { int32Desc with Kind := MessageKind }
    Message := none
    Enum := none
    Oneof := none
    Alias := some { GoName := "InnerAlias", GoImportPath := "example/pb" } }

/-- The objects of `nestedFile` after the pass. -/
def nestedEnv1 : Env :=
  { msgs := [innerMsg, innerAliasMsg, { outerMsg with Fields := [outerW1] }]
    raws :=
      [{ Name := "Inner"
         Field := [{ Name := "n", Type_ := some 5, TypeName := none,
                     Options := none }] },
       { Name := "InnerAlias"
         Field := [{ Name := "value", Type_ := some 11, TypeName := some "pb.Inner",
                     Options := none }] },
       { Name := "Outer"
         Field := [{ Name := "w", Type_ := some 11, TypeName := none,
                     Options := none }] }] }

/-- The file `nestedFile` after the pass. -/
def nestedFile1 : File :=
  { Generate := true, Messages := [0, 2], Aliases := [1],
    Proto := { MessageType := [0, 2] } }

/-- Field options that mark a field as deprecated. -/
def deprecatedOptions : FieldOptions :=
  { Deprecated := true, Packed := none, Uninterpreted := [] }

/-- The field `w` of `Holder`, declared with `[deprecated = true]`. -/
def holderWDeprecated : Field :=
  { holderW with
    Desc := { holderW.Desc with Options := some deprecatedOptions } }

/-- The Wrapper/Holder scenario in which `Holder.w` is declared deprecated and
the payload `Wrapper.value` has no options. -/
def deprecatedEnv : Env :=
  { msgs := [wrapperMsg, { holderMsg with Fields := [holderWDeprecated] }]
    raws :=
      [{ Name := "Wrapper"
         Field := [{ Name := "value", Type_ := some 5, TypeName := none,
                     Options := none }] },
       { Name := "Holder"
         Field := [{ Name := "w", Type_ := some 11, TypeName := some "pb.Wrapper",
                     Options := some deprecatedOptions }] }] }

/-- A file that declares `Holder` only; `Wrapper` is declared in another file. -/
def importingFile : File :=
  { Generate := true, Messages := [1], Aliases := [],
    Proto := { MessageType := [1] } }

/-- A file without aliases that lists one raw message more than messages. -/
def longRawFile : File :=
  { Generate := true, Messages := [1], Aliases := [],
    Proto := { MessageType := [1, 0] } }

/-- Objects without any alias: `Wrapper` and `Holder` without the marker. -/
def plainEnv : Env :=
  { msgs := [{ wrapperMsg with Leading := "" }, holderMsg]
    raws := scenarioEnv.raws }

/-- The message `Empty` of the specification: marked as an alias, without any
field. -/
def emptyMsg : Message :=
  { GoIdent := { GoName := "Empty", GoImportPath := "example/pb" }
    FullName := "pb.Empty"
    Leading := " protobuf:alias\n"
    Fields := []
    Messages := [] }

/-- The Wrapper/Holder scenario with the message `Empty` at address 2. -/
def emptyEnv : Env :=
  { msgs := [wrapperMsg, holderMsg, emptyMsg]
    raws := scenarioEnv.raws ++ [{ Name := "Empty", Field := [] }] }

/-- The file that declares `Wrapper`, `Holder` and `Empty`. -/
def emptyFile : File :=
  { Generate := true, Messages := [0, 1, 2], Aliases := [],
    Proto := { MessageType := [0, 1, 2] } }

/-- The Wrapper/Holder scenario in which the raw message of `Holder` has lost
its field. -/
def divergedEnv : Env :=
  { msgs := [wrapperMsg, holderMsg]
    raws :=
      [{ Name := "Wrapper"
         Field := [{ Name := "value", Type_ := some 5, TypeName := none,
                     Options := none }] },
       { Name := "Holder", Field := [] }] }

/-- The payload of `WrapperAlias`: a repeated, deprecated field of kind message
that references the alias `Wrapper`. -/
def chainPayload : Field :=
  { GoName := "Value"
    Desc :=
      { int32Desc with
        Options := some deprecatedOptions
        Cardinality := Repeated
        Kind := MessageKind
        Message := some "pb.Wrapper" }
    Message := some 0
    Enum := none
    Oneof := none
    Alias := none }

/-- The alias `WrapperAlias` of the alias `Wrapper`, stored at address 1. -/
def chainAliasMsg : Message :=
  { GoIdent := { GoName := "WrapperAlias", GoImportPath := "example/pb" }
    FullName := "pb.WrapperAlias"
    Leading := " protobuf:alias\n"
    Fields := [chainPayload]
    Messages := [] }

/-- The field `w` of `ChainHolder`, referencing `WrapperAlias`. -/
def chainHolderW : Field :=
  { GoName := "W"
    Desc := { int32Desc with Kind := MessageKind, Message := some "pb.WrapperAlias" }
    Message := some 1
    Enum := none
    Oneof := none
    Alias := none }

/-- The message `ChainHolder`, stored at address 2. -/
def chainHolderMsg : Message :=
  { GoIdent := { GoName := "ChainHolder", GoImportPath := "example/pb" }
    FullName := "pb.ChainHolder"
    Leading := ""
    Fields := [chainHolderW]
    Messages := [] }

/-- The objects of a chain of two aliases. -/
def chainEnv : Env :=
  { msgs := [wrapperMsg, chainAliasMsg, chainHolderMsg]
    raws :=
      [{ Name := "Wrapper"
         Field := [{ Name := "value", Type_ := some 5, TypeName := none,
                     Options := none }] },
       { Name := "WrapperAlias"
         Field := [{ Name := "value", Type_ := some 11,
                     TypeName := some "pb.Wrapper",
                     Options := some deprecatedOptions }] },
       { Name := "ChainHolder"
         Field := [{ Name := "w", Type_ := some 11,
                     TypeName := some "pb.WrapperAlias", Options := none }] }] }

/-- The file of the chain of two aliases. -/
def chainFile : File :=
  { Generate := true, Messages := [0, 1, 2], Aliases := [],
    Proto := { MessageType := [0, 1, 2] } }

/-- The field `d` of the nested message `Holder.Detail`, referencing the alias
`Wrapper`. -/
def detailD : Field :=
  { GoName := "D"
    Desc := { int32Desc with Kind := MessageKind, Message := some "pb.Wrapper" }
    Message := some 0
    Enum := none
    Oneof := none
    Alias := none }

/-- The message `Holder.Detail`, declared inside `Holder`, stored at address 2. -/
def detailMsg : Message :=
  { GoIdent := { GoName := "Holder_Detail", GoImportPath := "example/pb" }
    FullName := "pb.Holder.Detail"
    Leading := ""
    Fields := [detailD]
    Messages := [] }

/-- The Wrapper/Holder scenario in which `Holder` declares the nested message
`Holder.Detail`. The file lists the top-level messages only. -/
def nestingEnv : Env :=
  { msgs := [wrapperMsg, { holderMsg with Messages := [2] }, detailMsg]
    raws := scenarioEnv.raws }

/-- The field `w` of `Other`, a message of a second file, referencing the alias
`Wrapper` of the first file. -/
def otherMsg : Message :=
  { GoIdent := { GoName := "Other", GoImportPath := "example/other" }
    FullName := "other.Other"
    Leading := ""
    Fields := [holderW]
    Messages := [] }

/-- The objects of two files: `Wrapper` and `Holder` of the first file, `Other`
of the second. -/
def twoFilesEnv : Env :=
  { msgs := [wrapperMsg, holderMsg, otherMsg]
    raws := scenarioEnv.raws ++
      [{ Name := "Other"
         Field := [{ Name := "w", Type_ := some 11, TypeName := some "pb.Wrapper",
                     Options := none }] }] }

/-- The first file, imported only: not marked for generation. -/
def importedFile : File :=
  { Generate := false, Messages := [0, 1], Aliases := [],
    Proto := { MessageType := [0, 1] } }

/-- The second file, marked for generation. -/
def otherFile : File :=
  { Generate := true, Messages := [2], Aliases := [],
    Proto := { MessageType := [2] } }

/-- The objects of the two files after the callback: only `Other.w` and its raw
field are rewritten. -/
def twoFilesEnv1 : Env :=
  { msgs := [wrapperMsg, holderMsg, { otherMsg with Fields := [holderW1] }]
    raws := scenarioEnv.raws ++
      [{ Name := "Other"
         Field := [{ Name := "w", Type_ := some 5, TypeName := none,
                     Options := none }] }] }

/-! ## Reading and writing the object stores -/

theorem msg_setRaw (e : Env) (p : RawId) (m : DescriptorProto) (q : MsgId) :
    (e.setRaw p m).msg q = e.msg q := rfl

theorem raw_setMsg (e : Env) (p : MsgId) (m : Message) (q : RawId) :
    (e.setMsg p m).raw q = e.raw q := rfl

theorem msg_setMsg_ne (e : Env) (p q : MsgId) (m : Message) (h : q ≠ p) :
    (e.setMsg p m).msg q = e.msg q := by
  unfold Env.msg Env.setMsg
  simp only [List.getD_eq_getElem?_getD]
  rw [List.getElem?_set_ne (Ne.symm h)]

theorem msg_setMsg_self (e : Env) (p : MsgId) (m : Message) (h : p < e.msgs.length) :
    (e.setMsg p m).msg p = m := by
  unfold Env.msg Env.setMsg
  simp only [List.getD_eq_getElem?_getD]
  rw [List.getElem?_set_self h]
  rfl

theorem raw_setRaw_ne (e : Env) (p q : RawId) (m : DescriptorProto) (h : q ≠ p) :
    (e.setRaw p m).raw q = e.raw q := by
  unfold Env.raw Env.setRaw
  simp only [List.getD_eq_getElem?_getD]
  rw [List.getElem?_set_ne (Ne.symm h)]

theorem raw_setRaw_self (e : Env) (p : RawId) (m : DescriptorProto)
    (h : p < e.raws.length) : (e.setRaw p m).raw p = m := by
  unfold Env.raw Env.setRaw
  simp only [List.getD_eq_getElem?_getD]
  rw [List.getElem?_set_self h]
  rfl

/-- An address outside the store reads as the zero value. -/
theorem msg_of_length_le (e : Env) (p : MsgId) (h : e.msgs.length ≤ p) :
    e.msg p = default := by
  unfold Env.msg
  simp only [List.getD_eq_getElem?_getD]
  rw [List.getElem?_eq_none h]
  rfl

theorem raw_of_length_le (e : Env) (p : RawId) (h : e.raws.length ≤ p) :
    e.raw p = default := by
  unfold Env.raw
  simp only [List.getD_eq_getElem?_getD]
  rw [List.getElem?_eq_none h]
  rfl

/-- A message that has a field lives in the store. -/
theorem lt_of_field (e : Env) (p : MsgId) (j : Nat) (x : Field)
    (h : (e.msg p).Fields[j]? = some x) : p < e.msgs.length := by
  by_contra hlt
  rw [msg_of_length_le e p (Nat.le_of_not_lt hlt)] at h
  simp [default, instInhabitedMessage] at h

/-- A raw message that has a field lives in the store. -/
theorem lt_of_rawField (e : Env) (p : RawId) (j : Nat) (x : FieldDescriptorProto)
    (h : (e.raw p).Field[j]? = some x) : p < e.raws.length := by
  by_contra hlt
  rw [raw_of_length_le e p (Nat.le_of_not_lt hlt)] at h
  simp [default, instInhabitedDescriptorProto] at h

/-! ## Facts about `getAliasType` -/

theorem stringsContains_iff (s substr : String) :
    stringsContains s substr = true ↔ substr.data <:+: s.data := by
  simp [stringsContains]

theorem getAliasType_none (e : Env) : getAliasType e none = none := rfl

theorem getAliasType_some_iff (e : Env) (p : MsgId) (x : Field) :
    getAliasType e (some p) = some x ↔
      (aliasMarker.data <:+: (e.msg p).Leading.data ∧ (e.msg p).Fields = [x]) := by
  unfold getAliasType
  simp only [← stringsContains_iff]
  cases hc : stringsContains (e.msg p).Leading aliasMarker
  · simp
  · cases hf : (e.msg p).Fields with
    | nil => simp
    | cons a t =>
      cases t with
      | nil => simp
      | cons b u => simp

theorem getAliasType_eq_none_iff (e : Env) (p : MsgId) :
    getAliasType e (some p) = none ↔
      ¬ (aliasMarker.data <:+: (e.msg p).Leading.data ∧ (e.msg p).Fields.length = 1) := by
  unfold getAliasType
  simp only [← stringsContains_iff]
  cases hc : stringsContains (e.msg p).Leading aliasMarker
  · simp
  · cases hf : (e.msg p).Fields with
    | nil => simp
    | cons a t =>
      cases t with
      | nil => simp
      | cons b u => simp

/-! ## Environments that agree on what `getAliasType` reads -/

theorem Stable.refl (e : Env) : Stable e e :=
  ⟨fun _ => rfl, fun _ => rfl, fun _ => rfl, fun _ _ => rfl⟩

theorem isAlias_eq_false_iff (e : Env) (p : MsgId) :
    isAlias e p = false ↔ getAliasType e (some p) = none := by
  unfold isAlias
  cases getAliasType e (some p) <;> simp

theorem isAlias_eq_true_iff (e : Env) (p : MsgId) :
    isAlias e p = true ↔ ∃ x, getAliasType e (some p) = some x := by
  unfold isAlias
  cases getAliasType e (some p) <;> simp

theorem Stable.getAliasType_eq {e e1 : Env} (h : Stable e e1) (x : Option MsgId) :
    getAliasType e1 x = getAliasType e x := by
  cases x with
  | none => rfl
  | some p =>
    cases ha : isAlias e p with
    | true =>
      have hm := h.fixed p ha
      unfold getAliasType
      simp only [hm]
    | false =>
      have hn := (isAlias_eq_false_iff e p).1 ha
      rw [hn]
      rw [getAliasType_eq_none_iff] at hn ⊢
      rw [h.leading p, h.len p]
      exact hn

theorem Stable.isAlias_eq {e e1 : Env} (h : Stable e e1) (p : MsgId) :
    isAlias e1 p = isAlias e p := by
  unfold isAlias
  rw [h.getAliasType_eq]

theorem Stable.rewriteOf_eq {e e1 : Env} (h : Stable e e1) (x : Field) :
    rewriteOf e1 x = rewriteOf e x := by
  unfold rewriteOf
  rw [h.getAliasType_eq]
  have hg : (fun a => (e1.msg a).GoIdent) = fun a => (e.msg a).GoIdent :=
    funext h.goIdent
  rw [hg]

theorem Stable.trans {e e1 e2 : Env} (h : Stable e e1) (h1 : Stable e1 e2) :
    Stable e e2 where
  goIdent p := (h1.goIdent p).trans (h.goIdent p)
  leading p := (h1.leading p).trans (h.leading p)
  len p := (h1.len p).trans (h.len p)
  fixed p hp := by
    rw [h1.fixed p (by rw [h.isAlias_eq]; exact hp), h.fixed p hp]

/-- A rewritten field references no message, so rewriting it again keeps it. -/
theorem rewriteOf_rewriteOf (e : Env) (x : Field) :
    rewriteOf e (rewriteOf e x) = rewriteOf e x := by
  cases hx : getAliasType e x.Message with
  | none => simp [rewriteOf, hx]
  | some y =>
    have h1 : rewriteOf e x =
        rewriteField x y (x.Message.map fun a => (e.msg a).GoIdent) := by
      simp [rewriteOf, hx]
    rw [h1]
    simp [rewriteOf, rewriteField, getAliasType_none]

theorem Stable.rawStep_eq {e e1 : Env} (h : Stable e e1) (x : Option Field)
    (fd : FieldDescriptorProto) : rawStep e1 x fd = rawStep e x fd := by
  cases x with
  | none => rfl
  | some x =>
    unfold rawStep
    simp only [h.getAliasType_eq, h.rewriteOf_eq]

theorem syncFields_getElem? (e : Env) (fields : List Field)
    (fds : List FieldDescriptorProto) (k : Nat) :
    (syncFields e fields fds)[k]? = (fds[k]?).map (rawStep e fields[k]?) := by
  induction fields generalizing fds k with
  | nil =>
    have hid : rawStep e none = id := funext fun _ => rfl
    cases fds <;> simp [syncFields, hid]
  | cons x xs ih =>
    cases fds with
    | nil => simp [syncFields]
    | cons fd fds =>
      cases k with
      | zero =>
        simp only [syncFields, List.getElem?_cons_zero, Option.map_some', rawStep]
      | succ k =>
        simp only [syncFields, List.getElem?_cons_succ]
        exact ih fds k

/-! ## One visit of a field -/

theorem sameHeader_refl (m : Message) : sameHeader m m := ⟨rfl, rfl, rfl, rfl⟩

theorem sameHeader_trans {m m1 m2 : Message} (h : sameHeader m m1)
    (h1 : sameHeader m1 m2) : sameHeader m m2 :=
  ⟨h1.1.trans h.1, h1.2.1.trans h.2.1, h1.2.2.1.trans h.2.2.1,
    h1.2.2.2.trans h.2.2.2⟩

theorem rewriteOf_of_none (e : Env) (x : Field) (h : getAliasType e x.Message = none) :
    rewriteOf e x = x := by
  simp [rewriteOf, h]

/-- The effect of one visit of a field on the messages. -/
theorem fieldBody_sem {f : File} {i : Nat} {msg : MsgId} {j : Nat} {e e1 : Env}
    (h : fieldBody f i msg j e = some e1) :
    (∀ p, p ≠ msg → e1.msg p = e.msg p) ∧
    sameHeader (e.msg msg) (e1.msg msg) ∧
    (∀ k, (e1.msg msg).Fields[k]? =
      if k = j then ((e.msg msg).Fields[k]?).map (rewriteOf e)
      else (e.msg msg).Fields[k]?) := by
  unfold fieldBody at h
  cases hfld : (e.msg msg).Fields[j]? with
  | none =>
    simp only [hfld] at h
    cases h
    refine ⟨fun _ _ => rfl, sameHeader_refl _, fun k => ?_⟩
    by_cases hk : k = j
    · subst hk; simp [hfld]
    · simp [hk]
  | some field =>
    simp only [hfld] at h
    cases hal : getAliasType e field.Message with
    | none =>
      simp only [hal] at h
      cases h
      refine ⟨fun _ _ => rfl, sameHeader_refl _, fun k => ?_⟩
      by_cases hk : k = j
      · subst hk; simp [hfld, rewriteOf_of_none e field hal]
      · simp [hk]
    | some aliasField =>
      simp only [hal] at h
      cases hr : f.Proto.MessageType[i]? with
      | none => simp [hr] at h
      | some r =>
        simp only [hr, raw_setMsg] at h
        cases hfd : (e.raw r).Field[j]? with
        | none => simp [hfd] at h
        | some fd =>
          simp only [hfd, Option.some.injEq] at h
          subst h
          have hlt := lt_of_field e msg j field hfld
          refine ⟨fun p hp => ?_, ?_, fun k => ?_⟩
          · rw [msg_setRaw, msg_setMsg_ne e msg p _ hp]
          · rw [msg_setRaw, msg_setMsg_self e msg _ hlt]
            exact ⟨rfl, rfl, rfl, rfl⟩
          · rw [msg_setRaw, msg_setMsg_self e msg _ hlt]
            simp only [List.getElem?_set]
            have hj : j < (e.msg msg).Fields.length :=
              (List.getElem?_eq_some.1 hfld).1
            by_cases hk : k = j
            · subst hk
              simp [hfld, hj, rewriteOf, hal]
            · simp [hk, Ne.symm hk]

/-- The effect of one visit of a field on the raw messages. -/
theorem fieldBody_raw {f : File} {i : Nat} {msg : MsgId} {j : Nat} {e e1 : Env}
    (h : fieldBody f i msg j e = some e1) :
    (∀ q, f.Proto.MessageType[i]? ≠ some q → e1.raw q = e.raw q) ∧
    (∀ q, (e1.raw q).Name = (e.raw q).Name) ∧
    (∀ q k, f.Proto.MessageType[i]? = some q → (e1.raw q).Field[k]? =
      if k = j then ((e.raw q).Field[k]?).map (rawStep e ((e.msg msg).Fields[j]?))
      else (e.raw q).Field[k]?) := by
  unfold fieldBody at h
  cases hfld : (e.msg msg).Fields[j]? with
  | none =>
    simp only [hfld] at h
    cases h
    have hid : rawStep e none = id := funext fun _ => rfl
    refine ⟨fun _ _ => rfl, fun _ => rfl, fun q k _ => ?_⟩
    by_cases hk : k = j
    · subst hk; simp [hid]
    · simp [hk]
  | some field =>
    simp only [hfld] at h
    cases hal : getAliasType e field.Message with
    | none =>
      simp only [hal] at h
      cases h
      have hid : rawStep e (some field) = id := funext fun _ => by simp [rawStep, hal]
      refine ⟨fun _ _ => rfl, fun _ => rfl, fun q k _ => ?_⟩
      by_cases hk : k = j
      · subst hk; simp [hid]
      · simp [hk]
    | some aliasField =>
      simp only [hal] at h
      cases hr : f.Proto.MessageType[i]? with
      | none => simp [hr] at h
      | some r =>
        simp only [hr, raw_setMsg] at h
        cases hfd : (e.raw r).Field[j]? with
        | none => simp [hfd] at h
        | some fd =>
          simp only [hfd, Option.some.injEq] at h
          subst h
          have hlt := lt_of_rawField e r j fd hfd
          have hlt1 : r < (e.setMsg msg
              { e.msg msg with
                Fields := (e.msg msg).Fields.set j
                  (rewriteField field aliasField
                    (field.Message.map fun a => (e.msg a).GoIdent)) }).raws.length := hlt
          refine ⟨fun q hq => ?_, fun q => ?_, fun q k hq => ?_⟩
          · have hne : q ≠ r := fun hqr => hq (by rw [hqr])
            rw [raw_setRaw_ne _ r q _ hne, raw_setMsg]
          · by_cases hqr : q = r
            · subst hqr
              rw [raw_setRaw_self _ q _ hlt1]
            · rw [raw_setRaw_ne _ r q _ hqr, raw_setMsg]
          · have hqr : q = r := (Option.some.inj hq).symm
            subst hqr
            rw [raw_setRaw_self _ q _ hlt1]
            simp only [List.getElem?_set]
            have hj : j < (e.raw q).Field.length := (List.getElem?_eq_some.1 hfd).1
            by_cases hk : k = j
            · subst hk
              simp [hfd, hj, rawStep, rewriteOf, hal]
            · simp [hk, Ne.symm hk]

/-- A visit that succeeds on a field referencing an alias found the raw field. -/
theorem fieldBody_found {f : File} {i : Nat} {msg : MsgId} {j : Nat} {e e1 : Env}
    (h : fieldBody f i msg j e = some e1) (x y : Field)
    (hx : (e.msg msg).Fields[j]? = some x) (hy : getAliasType e x.Message = some y) :
    ∃ r fd, f.Proto.MessageType[i]? = some r ∧ (e.raw r).Field[j]? = some fd := by
  unfold fieldBody at h
  simp only [hx, hy] at h
  cases hr : f.Proto.MessageType[i]? with
  | none => simp [hr] at h
  | some r =>
    simp only [hr, raw_setMsg] at h
    cases hfd : (e.raw r).Field[j]? with
    | none => simp [hfd] at h
    | some fd => exact ⟨r, fd, rfl, hfd⟩

/-- A visit of a field that references no alias changes nothing. -/
theorem fieldBody_skip (f : File) (i : Nat) (msg : MsgId) (j : Nat) (e : Env)
    (h : ∀ x, (e.msg msg).Fields[j]? = some x → getAliasType e x.Message = none) :
    fieldBody f i msg j e = some e := by
  unfold fieldBody
  cases hfld : (e.msg msg).Fields[j]? with
  | none => rfl
  | some field => simp [h field hfld]

/-! ## The loop over the fields of one message -/

theorem length_eq_of_isSome {α β : Type} (l1 : List α) (l : List β)
    (h : ∀ k : Nat, (l1[k]?).isSome = (l[k]?).isSome) : l1.length = l.length := by
  rcases Nat.lt_trichotomy l1.length l.length with hlt | heq | hgt
  · have := h l1.length
    rw [List.getElem?_eq_none (Nat.le_refl _), List.getElem?_eq_getElem hlt] at this
    simp at this
  · exact heq
  · have := h l.length
    rw [List.getElem?_eq_none (Nat.le_refl _), List.getElem?_eq_getElem hgt] at this
    simp at this

theorem fieldBody_stable {f : File} {i : Nat} {msg : MsgId} {j : Nat} {e e1 : Env}
    (h : fieldBody f i msg j e = some e1) (hna : isAlias e msg = false) :
    Stable e e1 := by
  obtain ⟨hother, hhdr, hfld⟩ := fieldBody_sem h
  have hlen : (e1.msg msg).Fields.length = (e.msg msg).Fields.length := by
    apply length_eq_of_isSome
    intro k
    rw [hfld k]
    by_cases hk : k = j
    · simp [hk]
    · simp [hk]
  refine ⟨fun p => ?_, fun p => ?_, fun p => ?_, fun p hp => ?_⟩
  · by_cases hp : p = msg
    · subst hp; exact hhdr.1
    · rw [hother p hp]
  · by_cases hp : p = msg
    · subst hp; exact hhdr.2.2.1
    · rw [hother p hp]
  · by_cases hp : p = msg
    · subst hp; exact hlen
    · rw [hother p hp]
  · have hne : p ≠ msg := by
      intro hpm
      rw [hpm, hna] at hp
      exact Bool.noConfusion hp
    exact hother p hne

/-- The effect of the loop over the fields of `msg` on the messages. -/
theorem fieldLoop_sem {f : File} {i : Nat} {msg : MsgId} (n : Nat) :
    ∀ (j : Nat) (e e1 : Env), isAlias e msg = false →
    fieldLoop f i msg n j e = some e1 →
    Stable e e1 ∧ (∀ p, p ≠ msg → e1.msg p = e.msg p) ∧
    sameHeader (e.msg msg) (e1.msg msg) ∧
    (∀ k, (e1.msg msg).Fields[k]? =
      if j ≤ k ∧ k < j + n then ((e.msg msg).Fields[k]?).map (rewriteOf e)
      else (e.msg msg).Fields[k]?) := by
  induction n with
  | zero =>
    intro j e e1 _ h
    simp only [fieldLoop, Option.some.injEq] at h
    subst h
    refine ⟨Stable.refl _, fun _ _ => rfl, sameHeader_refl _, fun k => ?_⟩
    have : ¬ (j ≤ k ∧ k < j + 0) := by omega
    rw [if_neg this]
  | succ n ih =>
    intro j e e1 hna h
    simp only [fieldLoop] at h
    cases hb : fieldBody f i msg j e with
    | none => simp [hb] at h
    | some e2 =>
      simp only [hb] at h
      have hst := fieldBody_stable hb hna
      obtain ⟨hother, hhdr, hfld⟩ := fieldBody_sem hb
      have hna2 : isAlias e2 msg = false := by rw [hst.isAlias_eq]; exact hna
      obtain ⟨hst2, hother2, hhdr2, hfld2⟩ := ih (j + 1) e2 e1 hna2 h
      refine ⟨hst.trans hst2, fun p hp => ?_, sameHeader_trans hhdr hhdr2, fun k => ?_⟩
      · rw [hother2 p hp, hother p hp]
      · rw [hfld2 k, hfld k]
        have hrw : rewriteOf e2 = rewriteOf e := funext hst.rewriteOf_eq
        rw [hrw]
        by_cases hk : k = j
        · subst hk
          have h1 : ¬ (k + 1 ≤ k ∧ k < k + 1 + n) := by omega
          have h2 : k ≤ k ∧ k < k + (n + 1) := by omega
          simp [h1, h2]
        · by_cases hr : j + 1 ≤ k ∧ k < j + 1 + n
          · have h2 : j ≤ k ∧ k < j + (n + 1) := by omega
            simp [hk, hr, h2]
          · have h2 : ¬ (j ≤ k ∧ k < j + (n + 1)) := by omega
            simp [hk, hr, h2]

/-- The effect of the loop over the fields of `msg` on the raw messages. -/
theorem fieldLoop_raw {f : File} {i : Nat} {msg : MsgId} (n : Nat) :
    ∀ (j : Nat) (e e1 : Env), isAlias e msg = false →
    fieldLoop f i msg n j e = some e1 →
    (∀ q, f.Proto.MessageType[i]? ≠ some q → e1.raw q = e.raw q) ∧
    (∀ q, (e1.raw q).Name = (e.raw q).Name) ∧
    (∀ q k, f.Proto.MessageType[i]? = some q → (e1.raw q).Field[k]? =
      if j ≤ k ∧ k < j + n then
        ((e.raw q).Field[k]?).map (rawStep e ((e.msg msg).Fields[k]?))
      else (e.raw q).Field[k]?) := by
  induction n with
  | zero =>
    intro j e e1 _ h
    simp only [fieldLoop, Option.some.injEq] at h
    subst h
    refine ⟨fun _ _ => rfl, fun _ => rfl, fun q k _ => ?_⟩
    have : ¬ (j ≤ k ∧ k < j + 0) := by omega
    rw [if_neg this]
  | succ n ih =>
    intro j e e1 hna h
    simp only [fieldLoop] at h
    cases hb : fieldBody f i msg j e with
    | none => simp [hb] at h
    | some e2 =>
      simp only [hb] at h
      have hst := fieldBody_stable hb hna
      obtain ⟨-, -, hfld⟩ := fieldBody_sem hb
      obtain ⟨hro, hrn, hrf⟩ := fieldBody_raw hb
      have hna2 : isAlias e2 msg = false := by rw [hst.isAlias_eq]; exact hna
      obtain ⟨hro2, hrn2, hrf2⟩ := ih (j + 1) e2 e1 hna2 h
      refine ⟨fun q hq => ?_, fun q => ?_, fun q k hq => ?_⟩
      · rw [hro2 q hq, hro q hq]
      · rw [hrn2 q, hrn q]
      · rw [hrf2 q k hq, hrf q k hq, hfld k]
        have hrw : rawStep e2 = rawStep e :=
          funext fun x => funext fun fd => hst.rawStep_eq x fd
        rw [hrw]
        by_cases hk : k = j
        · subst hk
          have h1 : ¬ (k + 1 ≤ k ∧ k < k + 1 + n) := by omega
          have h2 : k ≤ k ∧ k < k + (n + 1) := by omega
          simp [h1, h2]
        · by_cases hr : j + 1 ≤ k ∧ k < j + 1 + n
          · have h2 : j ≤ k ∧ k < j + (n + 1) := by omega
            simp [hk, hr, h2]
          · have h2 : ¬ (j ≤ k ∧ k < j + (n + 1)) := by omega
            simp [hk, hr, h2]

/-! ## One visit of a message -/

theorem message_eq_resolvedMsg (e : Env) (m m1 : Message) (hh : sameHeader m m1)
    (hf : ∀ k : Nat, m1.Fields[k]? = (m.Fields[k]?).map (rewriteOf e)) :
    m1 = resolvedMsg e m := by
  have hfs : m1.Fields = m.Fields.map (rewriteOf e) := by
    apply List.ext_getElem?
    intro k
    rw [hf k, List.getElem?_map]
  obtain ⟨h1, h2, h3, h4⟩ := hh
  cases m1
  cases m
  simp only [resolvedMsg] at *
  simp [h1, h2, h3, h4, hfs]

theorem raw_eq_syncedRaw (e : Env) (fields : List Field) (rm rm1 : DescriptorProto)
    (hn : rm1.Name = rm.Name)
    (hf : ∀ k : Nat, rm1.Field[k]? = (rm.Field[k]?).map (rawStep e fields[k]?)) :
    rm1 = syncedRaw e fields rm := by
  have hfs : rm1.Field = syncFields e fields rm.Field := by
    apply List.ext_getElem?
    intro k
    rw [hf k, syncFields_getElem?]
  cases rm1
  cases rm
  simp only [syncedRaw] at *
  simp [hn, hfs]

theorem Stable.syncedRaw_eq {e e1 : Env} (h : Stable e e1) (fields : List Field)
    (rm : DescriptorProto) : syncedRaw e1 fields rm = syncedRaw e fields rm := by
  unfold syncedRaw
  congr 1
  apply List.ext_getElem?
  intro k
  rw [syncFields_getElem?, syncFields_getElem?]
  have hrw : rawStep e1 = rawStep e :=
    funext fun x => funext fun fd => h.rawStep_eq x fd
  rw [hrw]

theorem Stable.resolvedMsg_eq {e e1 : Env} (h : Stable e e1) (m : Message) :
    resolvedMsg e1 m = resolvedMsg e m := by
  unfold resolvedMsg
  have hrw : rewriteOf e1 = rewriteOf e := funext h.rewriteOf_eq
  rw [hrw]

theorem resolvedMsg_resolvedMsg (e : Env) (m : Message) :
    resolvedMsg e (resolvedMsg e m) = resolvedMsg e m := by
  unfold resolvedMsg
  simp only [List.map_map]
  have : rewriteOf e ∘ rewriteOf e = rewriteOf e :=
    funext fun x => rewriteOf_rewriteOf e x
  rw [this]

/-- A visit of an alias records it and changes nothing else. -/
theorem msgBody_alias (f : File) (i : Nat) (msg : MsgId) (s : LoopState)
    (h : isAlias s.env msg = true) :
    msgBody f i msg s = some { s with Aliases := s.Aliases ++ [msg] } := by
  unfold msgBody
  unfold isAlias at h
  simp [h]

/-- A visit of a message that is not an alias and that succeeds. -/
theorem msgBody_keep {f : File} {i : Nat} {msg : MsgId} {s s1 : LoopState}
    (hna : isAlias s.env msg = false) (h : msgBody f i msg s = some s1) :
    ∃ r, f.Proto.MessageType[i]? = some r ∧
      s1.Aliases = s.Aliases ∧
      s1.keepMessages = s.keepMessages ++ [msg] ∧
      s1.keepMessageTypes = s.keepMessageTypes ++ [r] ∧
      Stable s.env s1.env ∧
      (∀ p, p ≠ msg → s1.env.msg p = s.env.msg p) ∧
      s1.env.msg msg = resolvedMsg s.env (s.env.msg msg) ∧
      (∀ q, q ≠ r → s1.env.raw q = s.env.raw q) ∧
      s1.env.raw r = syncedRaw s.env (s.env.msg msg).Fields (s.env.raw r) := by
  unfold msgBody at h
  have hna1 : (getAliasType s.env (some msg)).isSome = false := hna
  simp only [hna1, Bool.false_eq_true, if_false] at h
  cases hl : fieldLoop f i msg (s.env.msg msg).Fields.length 0 s.env with
  | none => simp [hl] at h
  | some e1 =>
    simp only [hl] at h
    cases hr : f.Proto.MessageType[i]? with
    | none => simp [hr] at h
    | some r =>
      simp only [hr, Option.some.injEq] at h
      subst h
      obtain ⟨hst, hother, hhdr, hfld⟩ := fieldLoop_sem _ 0 s.env e1 hna hl
      obtain ⟨hro, hrn, hrf⟩ := fieldLoop_raw _ 0 s.env e1 hna hl
      refine ⟨r, rfl, rfl, rfl, rfl, hst, hother, ?_, fun q hq => ?_, ?_⟩
      · apply message_eq_resolvedMsg _ _ _ hhdr
        intro k
        rw [hfld k]
        by_cases hk : k < (s.env.msg msg).Fields.length
        · have : 0 ≤ k ∧ k < 0 + (s.env.msg msg).Fields.length := by omega
          rw [if_pos this]
        · have : ¬ (0 ≤ k ∧ k < 0 + (s.env.msg msg).Fields.length) := by omega
          rw [if_neg this, List.getElem?_eq_none (Nat.le_of_not_lt hk)]
          rfl
      · apply hro
        intro hc
        rw [hr] at hc
        exact hq (Option.some.inj hc).symm
      · apply raw_eq_syncedRaw _ _ _ _ (hrn r)
        intro k
        rw [hrf r k hr]
        by_cases hk : k < (s.env.msg msg).Fields.length
        · have : 0 ≤ k ∧ k < 0 + (s.env.msg msg).Fields.length := by omega
          rw [if_pos this]
        · have : ¬ (0 ≤ k ∧ k < 0 + (s.env.msg msg).Fields.length) := by omega
          rw [if_neg this, List.getElem?_eq_none (Nat.le_of_not_lt hk)]
          have hid : rawStep s.env none = id := funext fun _ => rfl
          rw [hid]
          simp

/-! ## The loop over the messages of a file -/

theorem drop_of_getElem? {α : Type} (l : List α) (i : Nat) (r : α)
    (h : l[i]? = some r) : l.drop i = r :: l.drop (i + 1) := by
  obtain ⟨hi, rfl⟩ := List.getElem?_eq_some.1 h
  exact List.drop_eq_getElem_cons hi

theorem keptRaws_cons_alias (e : Env) (m : MsgId) (msgs : List MsgId)
    (raws : List RawId) (h : isAlias e m = true) :
    keptRaws e (m :: msgs) raws = keptRaws e msgs raws.tail := by
  cases raws with
  | nil => simp [keptRaws]
  | cons r rs => simp [keptRaws, List.filter_cons, h]

theorem keptRaws_cons_keep (e : Env) (m : MsgId) (msgs : List MsgId) (r : RawId)
    (rs : List RawId) (h : isAlias e m = false) :
    keptRaws e (m :: msgs) (r :: rs) = r :: keptRaws e msgs rs := by
  simp [keptRaws, List.filter_cons, h]

theorem keptRaws_congr (e e1 : Env) (msgs : List MsgId) (raws : List RawId)
    (h : ∀ p, isAlias e1 p = isAlias e p) :
    keptRaws e1 msgs raws = keptRaws e msgs raws := by
  unfold keptRaws
  have : (fun x : MsgId × RawId => !isAlias e1 x.1) = fun x => !isAlias e x.1 :=
    funext fun x => by rw [h]
  rw [this]

/-- The effect of the loop over `f.Messages` on the messages and on the lists it
builds. -/
theorem msgLoop_sem {f : File} (msgs : List MsgId) :
    ∀ (i : Nat) (s s1 : LoopState), msgLoop f msgs i s = some s1 →
    Stable s.env s1.env ∧
    s1.Aliases = s.Aliases ++ msgs.filter (fun m => isAlias s.env m) ∧
    s1.keepMessages = s.keepMessages ++ msgs.filter (fun m => !isAlias s.env m) ∧
    s1.keepMessageTypes =
      s.keepMessageTypes ++ keptRaws s.env msgs (f.Proto.MessageType.drop i) ∧
    (∀ p, s1.env.msg p =
      if p ∈ msgs ∧ isAlias s.env p = false then resolvedMsg s.env (s.env.msg p)
      else s.env.msg p) := by
  induction msgs with
  | nil =>
    intro i s s1 h
    simp only [msgLoop, Option.some.injEq] at h
    subst h
    refine ⟨Stable.refl _, by simp, by simp, by simp [keptRaws], fun p => by simp⟩
  | cons m rest ih =>
    intro i s s1 h
    simp only [msgLoop] at h
    cases hb : msgBody f i m s with
    | none => simp [hb] at h
    | some s2 =>
      simp only [hb] at h
      obtain ⟨hst2, hal2, hkm2, hkt2, hmsg2⟩ := ih (i + 1) s2 s1 h
      cases ha : isAlias s.env m with
      | true =>
        rw [msgBody_alias f i m s ha] at hb
        simp only [Option.some.injEq] at hb
        subst hb
        refine ⟨hst2, ?_, ?_, ?_, fun p => ?_⟩
        · rw [hal2]; simp [List.filter_cons, ha]
        · rw [hkm2]; simp [List.filter_cons, ha]
        · rw [hkt2, keptRaws_cons_alias _ _ _ _ ha, List.tail_drop]
        · rw [hmsg2 p]
          by_cases hp : p = m
          · subst hp
            simp [ha]
          · simp [hp]
      | false =>
        obtain ⟨r, hr, hal, hkm, hkt, hst, hother, hself, -, -⟩ := msgBody_keep ha hb
        have hali : ∀ p, isAlias s2.env p = isAlias s.env p := hst.isAlias_eq
        refine ⟨hst.trans hst2, ?_, ?_, ?_, fun p => ?_⟩
        · rw [hal2, hal]
          have : (fun m => isAlias s2.env m) = fun m => isAlias s.env m := funext hali
          rw [this]
          simp [List.filter_cons, ha]
        · rw [hkm2, hkm]
          have : (fun m => !isAlias s2.env m) = fun m => !isAlias s.env m :=
            funext fun m => by rw [hali]
          rw [this]
          simp [List.filter_cons, ha]
        · rw [hkt2, hkt, drop_of_getElem? _ i r hr, keptRaws_cons_keep _ _ _ _ _ ha,
            keptRaws_congr s.env s2.env _ _ hali]
          simp
        · rw [hmsg2 p, hali p, hst.resolvedMsg_eq]
          by_cases hp : p = m
          · subst hp
            rw [hself, resolvedMsg_resolvedMsg]
            simp [ha]
          · rw [hother p hp]
            simp [hp]

theorem syncFields_length (e : Env) (fields : List Field)
    (fds : List FieldDescriptorProto) :
    (syncFields e fields fds).length = fds.length := by
  apply length_eq_of_isSome
  intro k
  rw [syncFields_getElem?]
  simp

/-- Raw messages away from the indexes of the surviving messages are not
written by the loop. -/
theorem msgLoop_raw_frame {f : File} (msgs : List MsgId) :
    ∀ (i : Nat) (s s1 : LoopState), msgLoop f msgs i s = some s1 →
    ∀ q, (∀ k m, msgs[k]? = some m → isAlias s.env m = false →
        f.Proto.MessageType[i + k]? ≠ some q) →
      s1.env.raw q = s.env.raw q := by
  induction msgs with
  | nil =>
    intro i s s1 h q _
    simp only [msgLoop, Option.some.injEq] at h
    subst h
    rfl
  | cons m rest ih =>
    intro i s s1 h q hq
    simp only [msgLoop] at h
    cases hb : msgBody f i m s with
    | none => simp [hb] at h
    | some s2 =>
      simp only [hb] at h
      cases ha : isAlias s.env m with
      | true =>
        rw [msgBody_alias f i m s ha] at hb
        simp only [Option.some.injEq] at hb
        subst hb
        apply ih (i + 1) _ s1 h q
        intro k m1 hk hm1
        have := hq (k + 1) m1 (by simpa using hk) hm1
        rwa [show i + (k + 1) = i + 1 + k by omega] at this
      | false =>
        obtain ⟨r, hr, -, -, -, hst, -, -, hro, -⟩ := msgBody_keep ha hb
        have hqr : q ≠ r := by
          intro hc
          apply hq 0 m (by simp) ha
          rw [Nat.add_zero, hr, hc]
        rw [← hro q hqr]
        apply ih (i + 1) s2 s1 h q
        intro k m1 hk hm1
        rw [hst.isAlias_eq] at hm1
        have := hq (k + 1) m1 (by simpa using hk) hm1
        rwa [show i + (k + 1) = i + 1 + k by omega] at this

/-- The loop keeps the name and the number of fields of every raw message. -/
theorem msgLoop_raw_shape {f : File} (msgs : List MsgId) :
    ∀ (i : Nat) (s s1 : LoopState), msgLoop f msgs i s = some s1 →
    ∀ q, (s1.env.raw q).Name = (s.env.raw q).Name ∧
      (s1.env.raw q).Field.length = (s.env.raw q).Field.length := by
  induction msgs with
  | nil =>
    intro i s s1 h q
    simp only [msgLoop, Option.some.injEq] at h
    subst h
    exact ⟨rfl, rfl⟩
  | cons m rest ih =>
    intro i s s1 h q
    simp only [msgLoop] at h
    cases hb : msgBody f i m s with
    | none => simp [hb] at h
    | some s2 =>
      simp only [hb] at h
      obtain ⟨h1, h2⟩ := ih (i + 1) s2 s1 h q
      cases ha : isAlias s.env m with
      | true =>
        rw [msgBody_alias f i m s ha] at hb
        simp only [Option.some.injEq] at hb
        subst hb
        exact ⟨h1, h2⟩
      | false =>
        obtain ⟨r, hr, -, -, -, -, -, -, hro, hrs⟩ := msgBody_keep ha hb
        by_cases hqr : q = r
        · subst hqr
          rw [h1, h2, hrs]
          exact ⟨rfl, syncFields_length _ _ _⟩
        · rw [h1, h2, hro q hqr]
          exact ⟨rfl, rfl⟩

/-- When no message and no raw message is listed twice, the raw message at the
index of a surviving message ends up synchronized with that message. -/
theorem msgLoop_raw_sync {f : File} (msgs : List MsgId) :
    ∀ (i : Nat) (s s1 : LoopState), msgs.Nodup →
    (f.Proto.MessageType.drop i).Nodup → msgLoop f msgs i s = some s1 →
    ∀ k m q, msgs[k]? = some m → isAlias s.env m = false →
      f.Proto.MessageType[i + k]? = some q →
      s1.env.raw q = syncedRaw s.env (s.env.msg m).Fields (s.env.raw q) := by
  induction msgs with
  | nil =>
    intro i s s1 _ _ _ k m q hk
    simp at hk
  | cons m0 rest ih =>
    intro i s s1 hnd hrnd h k m q hk hm hq
    simp only [msgLoop] at h
    have hnd1 : rest.Nodup := (List.nodup_cons.1 hnd).2
    have hm0 : m0 ∉ rest := (List.nodup_cons.1 hnd).1
    have hrnd1 : (f.Proto.MessageType.drop (i + 1)).Nodup := by
      rw [← List.tail_drop]
      exact List.Nodup.sublist (List.tail_sublist _) hrnd
    cases hb : msgBody f i m0 s with
    | none => simp [hb] at h
    | some s2 =>
      simp only [hb] at h
      cases ha : isAlias s.env m0 with
      | true =>
        rw [msgBody_alias f i m0 s ha] at hb
        simp only [Option.some.injEq] at hb
        subst hb
        cases k with
        | zero =>
          simp only [List.getElem?_cons_zero, Option.some.injEq] at hk
          subst hk
          rw [ha] at hm
          exact Bool.noConfusion hm
        | succ k =>
          simp only [List.getElem?_cons_succ] at hk
          rw [show i + (k + 1) = i + 1 + k by omega] at hq
          exact ih (i + 1) _ s1 hnd1 hrnd1 h k m q hk hm hq
      | false =>
        obtain ⟨r, hr, -, -, -, hst, hother, -, hro, hrs⟩ := msgBody_keep ha hb
        have hdrop := drop_of_getElem? _ i r hr
        have hrnot : r ∉ f.Proto.MessageType.drop (i + 1) := by
          rw [hdrop] at hrnd
          exact (List.nodup_cons.1 hrnd).1
        cases k with
        | zero =>
          simp only [List.getElem?_cons_zero, Option.some.injEq] at hk
          subst hk
          rw [Nat.add_zero, hr] at hq
          have hqr : r = q := Option.some.inj hq
          subst hqr
          rw [← hrs]
          apply msgLoop_raw_frame rest (i + 1) s2 s1 h r
          intro k1 m1 _ _ hc
          apply hrnot
          rw [List.mem_iff_getElem?]
          exact ⟨k1, by rw [List.getElem?_drop]; exact hc⟩
        | succ k =>
          simp only [List.getElem?_cons_succ] at hk
          rw [show i + (k + 1) = i + 1 + k by omega] at hq
          have hm2 : isAlias s2.env m = false := by rw [hst.isAlias_eq]; exact hm
          rw [ih (i + 1) s2 s1 hnd1 hrnd1 h k m q hk hm2 hq, hst.syncedRaw_eq]
          have hmne : m ≠ m0 := by
            intro hc
            apply hm0
            rw [← hc, List.mem_iff_getElem?]
            exact ⟨k, hk⟩
          have hqne : q ≠ r := by
            intro hc
            apply hrnot
            rw [← hc, List.mem_iff_getElem?]
            exact ⟨k, by rw [List.getElem?_drop]; exact hq⟩
          rw [hother m hmne, hro q hqne]

/-- The two lists of survivors grow in lock-step. -/
theorem msgLoop_lengths {f : File} (msgs : List MsgId) :
    ∀ (i : Nat) (s s1 : LoopState), msgLoop f msgs i s = some s1 →
    s1.keepMessageTypes.length + s.keepMessages.length =
      s1.keepMessages.length + s.keepMessageTypes.length := by
  induction msgs with
  | nil =>
    intro i s s1 h
    simp only [msgLoop, Option.some.injEq] at h
    subst h
    omega
  | cons m rest ih =>
    intro i s s1 h
    simp only [msgLoop] at h
    cases hb : msgBody f i m s with
    | none => simp [hb] at h
    | some s2 =>
      simp only [hb] at h
      have h2 := ih (i + 1) s2 s1 h
      cases ha : isAlias s.env m with
      | true =>
        rw [msgBody_alias f i m s ha] at hb
        simp only [Option.some.injEq] at hb
        subst hb
        exact h2
      | false =>
        obtain ⟨r, -, -, hkm, hkt, -, -, -, -, -⟩ := msgBody_keep ha hb
        rw [hkm, hkt] at h2
        simp only [List.length_append, List.length_singleton] at h2
        omega

/-! ## The pass on one file -/

theorem resolveFile_eq_some {e e1 : Env} {f f1 : File}
    (h : resolveFile e f = some (e1, f1)) :
    ∃ s1, msgLoop f f.Messages 0 (initState e f) = some s1 ∧ e1 = s1.env ∧
      f1 = { f with
        Messages := s1.keepMessages
        Aliases := s1.Aliases
        Proto := { MessageType := s1.keepMessageTypes } } := by
  unfold resolveFile at h
  cases hl : msgLoop f f.Messages 0
      { env := e, Aliases := f.Aliases, keepMessages := [], keepMessageTypes := [] } with
  | none => simp [hl] at h
  | some s1 =>
    simp only [hl, Option.some.injEq, Prod.mk.injEq] at h
    exact ⟨s1, hl, h.1.symm, h.2.symm⟩

/-- What a successful pass makes of the file and of the messages. -/
theorem resolveFile_spec {e e1 : Env} {f f1 : File}
    (h : resolveFile e f = some (e1, f1)) :
    Stable e e1 ∧
    f1.Generate = f.Generate ∧
    f1.Messages = f.Messages.filter (fun m => !isAlias e m) ∧
    f1.Aliases = f.Aliases ++ f.Messages.filter (fun m => isAlias e m) ∧
    f1.Proto.MessageType = keptRaws e f.Messages f.Proto.MessageType ∧
    f1.Proto.MessageType.length = f1.Messages.length ∧
    (∀ p, e1.msg p =
      if p ∈ f.Messages ∧ isAlias e p = false then resolvedMsg e (e.msg p)
      else e.msg p) := by
  obtain ⟨s1, hl, he, hf⟩ := resolveFile_eq_some h
  obtain ⟨hst, hal, hkm, hkt, hmsg⟩ := msgLoop_sem _ 0 _ s1 hl
  have hlen := msgLoop_lengths _ 0 _ s1 hl
  subst he hf
  simp only [initState, List.nil_append, List.drop_zero, List.length_nil,
    Nat.add_zero] at hst hal hkm hkt hmsg hlen
  exact ⟨hst, rfl, hkm, hal, hkt, hlen, hmsg⟩

/-- What a successful pass makes of the raw messages. -/
theorem resolveFile_raw {e e1 : Env} {f f1 : File}
    (h : resolveFile e f = some (e1, f1)) :
    (∀ q, (e1.raw q).Name = (e.raw q).Name ∧
      (e1.raw q).Field.length = (e.raw q).Field.length) ∧
    (∀ q, (∀ (k : Nat) m, f.Messages[k]? = some m → isAlias e m = false →
        f.Proto.MessageType[k]? ≠ some q) → e1.raw q = e.raw q) ∧
    (f.Messages.Nodup → f.Proto.MessageType.Nodup →
      ∀ (k : Nat) m q, f.Messages[k]? = some m → isAlias e m = false →
        f.Proto.MessageType[k]? = some q →
        e1.raw q = syncedRaw e (e.msg m).Fields (e.raw q)) := by
  obtain ⟨s1, hl, he, hf⟩ := resolveFile_eq_some h
  subst he hf
  refine ⟨fun q => msgLoop_raw_shape _ 0 _ s1 hl q, fun q hq => ?_,
    fun hnd hrnd k m q hk hm hq => ?_⟩
  · apply msgLoop_raw_frame _ 0 _ s1 hl q
    intro k m hk hm
    rw [Nat.zero_add]
    exact hq k m hk hm
  · have := msgLoop_raw_sync _ 0 _ s1 hnd (by simpa using hrnd) hl k m q hk hm
      (by rw [Nat.zero_add]; exact hq)
    exact this

/-- A field of a surviving message that references an alias ends up rewritten
from the payload as it was before the pass. -/
theorem resolveFile_field {e e1 : Env} {f f1 : File}
    (h : resolveFile e f = some (e1, f1)) (m : MsgId) (hm : m ∈ f1.Messages)
    (j : Nat) (x : Field) (hx : (e.msg m).Fields[j]? = some x) :
    (e1.msg m).Fields[j]? = some (rewriteOf e x) := by
  obtain ⟨-, -, hkm, -, -, -, hmsg⟩ := resolveFile_spec h
  rw [hkm, List.mem_filter] at hm
  have hna : isAlias e m = false := by simpa using hm.2
  rw [hmsg m, if_pos ⟨hm.1, hna⟩]
  simp [resolvedMsg, List.getElem?_map, hx]

theorem syncRawField_type (d : FieldL1) (fd : FieldDescriptorProto) :
    (syncRawField d fd).Type_ = some (FieldDescriptorProto_Type d.Kind) := by
  unfold syncRawField
  cases d.Options <;> rfl

theorem syncRawField_typeName (d : FieldL1) (fd : FieldDescriptorProto) :
    (syncRawField d fd).TypeName = none := by
  unfold syncRawField
  cases d.Options <;> rfl

theorem syncRawField_options (d : FieldL1) (fd : FieldDescriptorProto) :
    (syncRawField d fd).Options =
      match d.Options with
      | some opts => some opts
      | none => fd.Options := by
  unfold syncRawField
  cases d.Options <;> rfl

theorem mem_zip_iff_getElem? {α β : Type} (l1 : List α) (l2 : List β) (x : α × β) :
    x ∈ l1.zip l2 ↔ ∃ i : Nat, l1[i]? = some x.1 ∧ l2[i]? = some x.2 := by
  rw [List.mem_iff_getElem?]
  simp only [List.getElem?_zip_eq_some]

/-- In aligned mirrors the raw field under a field exists. -/
theorem Aligned.rawField {e : Env} {f : File} (h : Aligned e f) (i : Nat)
    (m : MsgId) (q : RawId) (hm : f.Messages[i]? = some m)
    (hq : f.Proto.MessageType[i]? = some q) (j : Nat) (x : Field)
    (hx : (e.msg m).Fields[j]? = some x) :
    ∃ fd, (e.raw q).Field[j]? = some fd := by
  have hmem : (m, q) ∈ f.Messages.zip f.Proto.MessageType :=
    (mem_zip_iff_getElem? _ _ _).2 ⟨i, hm, hq⟩
  have hlen := h.2 (m, q) hmem
  have hj : j < (e.msg m).Fields.length := (List.getElem?_eq_some.1 hx).1
  have hj2 : j < (e.raw q).Field.length := by
    have : (e.msg (m, q).1).Fields.length = (e.msg m).Fields.length := rfl
    have : (e.raw (m, q).2).Field.length = (e.raw q).Field.length := rfl
    omega
  exact ⟨_, List.getElem?_eq_getElem hj2⟩

/-- A surviving message is a listed message that is not an alias. -/
theorem mem_survivors {e e1 : Env} {f f1 : File}
    (h : resolveFile e f = some (e1, f1)) (m : MsgId) :
    m ∈ f1.Messages ↔ m ∈ f.Messages ∧ isAlias e m = false := by
  obtain ⟨-, -, hkm, -, -, -, -⟩ := resolveFile_spec h
  rw [hkm, List.mem_filter]
  simp

/-- The raw field under a rewritten field, when no message and no raw message
is listed twice. -/
theorem resolveFile_rawField {e e1 : Env} {f f1 : File}
    (h : resolveFile e f = some (e1, f1)) (hnd : f.Messages.Nodup)
    (hrnd : f.Proto.MessageType.Nodup) (i : Nat) (m : MsgId) (q : RawId)
    (hm : f.Messages[i]? = some m) (hna : isAlias e m = false)
    (hq : f.Proto.MessageType[i]? = some q) (j : Nat) :
    (e1.raw q).Field[j]? =
      ((e.raw q).Field[j]?).map (rawStep e ((e.msg m).Fields[j]?)) := by
  obtain ⟨-, -, hsync⟩ := resolveFile_raw h
  rw [hsync hnd hrnd i m q hm hna hq]
  simp only [syncedRaw]
  rw [syncFields_getElem?]

/-- The fields of a surviving message after the pass. -/
theorem resolveFile_fields {e e1 : Env} {f f1 : File}
    (h : resolveFile e f = some (e1, f1)) (m : MsgId) (hm : m ∈ f1.Messages)
    (j : Nat) :
    (e1.msg m).Fields[j]? = ((e.msg m).Fields[j]?).map (rewriteOf e) := by
  obtain ⟨-, -, -, -, -, -, hmsg⟩ := resolveFile_spec h
  rw [hmsg m, if_pos ((mem_survivors h m).1 hm)]
  simp [resolvedMsg, List.getElem?_map]

/-- The pass keeps the qualified name of every message. -/
theorem resolveFile_fullName {e e1 : Env} {f f1 : File}
    (h : resolveFile e f = some (e1, f1)) (a : MsgId) :
    (e1.msg a).FullName = (e.msg a).FullName := by
  obtain ⟨-, -, -, -, -, -, hmsg⟩ := resolveFile_spec h
  rw [hmsg a]
  split_ifs <;> rfl

/-- The surviving pairs of a message and its raw message. -/
theorem kept_pairs {e e1 : Env} {f f1 : File}
    (h : resolveFile e f = some (e1, f1))
    (hlen : f.Messages.length = f.Proto.MessageType.length) :
    f1.Messages.zip f1.Proto.MessageType =
      (f.Messages.zip f.Proto.MessageType).filter fun x => !isAlias e x.1 := by
  obtain ⟨-, -, hkm, -, hkt, -, -⟩ := resolveFile_spec h
  symm
  apply List.zip_of_prod
  · rw [hkm]
    have hfst : (f.Messages.zip f.Proto.MessageType).map Prod.fst = f.Messages :=
      List.map_fst_zip _ _ (Nat.le_of_eq hlen)
    conv_rhs => rw [← hfst]
    rw [List.filter_map]
    rfl
  · rw [hkt]
    rfl

/-- A surviving pair sits at one index of the input lists. -/
theorem kept_pair_index {e e1 : Env} {f f1 : File}
    (h : resolveFile e f = some (e1, f1))
    (hlen : f.Messages.length = f.Proto.MessageType.length) (x : MsgId × RawId)
    (hx : x ∈ f1.Messages.zip f1.Proto.MessageType) :
    isAlias e x.1 = false ∧
      ∃ i : Nat, f.Messages[i]? = some x.1 ∧ f.Proto.MessageType[i]? = some x.2 := by
  rw [kept_pairs h hlen, List.mem_filter] at hx
  exact ⟨by simpa using hx.2, (mem_zip_iff_getElem? _ _ _).1 hx.1⟩

theorem specConsistent_congr (e e1 : Env)
    (h : ∀ a, (e1.msg a).FullName = (e.msg a).FullName) (F : Field)
    (fd : FieldDescriptorProto) : specConsistent e1 F fd = specConsistent e F fd := by
  unfold specConsistent
  cases F.Message with
  | none => rfl
  | some a => simp only [h a]

/-- The raw type code written by the pass is the number of the kind. -/
theorem syncRawField_code (d : FieldL1) (fd : FieldDescriptorProto) :
    (syncRawField d fd).Type_ = some d.Kind := by
  rw [syncRawField_type]
  rfl

theorem specConsistent_scalar (e : Env) (F P : Field) (ident : Option GoIdent)
    (fd : FieldDescriptorProto) (hs : scalarKind P.Desc.Kind) :
    specConsistent e (rewriteField F P ident)
      (syncRawField (rewriteField F P ident).Desc fd) = true := by
  obtain ⟨h1, h2, h3⟩ := hs
  unfold specConsistent
  rw [syncRawField_code]
  simp [rewriteField, h1, h2, h3]

/-- A rewritten field and the raw field under it are consistent exactly when
the kind of the payload is scalar. -/
theorem specConsistent_rewritten_iff (e : Env) (F P : Field)
    (ident : Option GoIdent) (fd : FieldDescriptorProto) :
    specConsistent e (rewriteField F P ident)
      (syncRawField (rewriteField F P ident).Desc fd) = true ↔
      scalarKind P.Desc.Kind := by
  constructor
  · intro h
    unfold specConsistent at h
    unfold scalarKind
    by_cases h1 : P.Desc.Kind = MessageKind ∨ P.Desc.Kind = GroupKind
    · simp [rewriteField, h1] at h
    · by_cases h2 : P.Desc.Kind = EnumKind
      · simp [rewriteField, h1, h2] at h
      · exact ⟨fun hc => h1 (Or.inl hc), fun hc => h1 (Or.inr hc), h2⟩
  · exact specConsistent_scalar e F P ident fd

/-! ## A pass on aligned mirrors completes -/

theorem fieldBody_succeeds (f : File) (i : Nat) (msg : MsgId) (j : Nat) (e : Env)
    (r : RawId) (hr : f.Proto.MessageType[i]? = some r)
    (hj : j < (e.raw r).Field.length) : ∃ e1, fieldBody f i msg j e = some e1 := by
  cases hfld : (e.msg msg).Fields[j]? with
  | none => exact ⟨e, by unfold fieldBody; simp only [hfld]⟩
  | some field =>
    cases hal : getAliasType e field.Message with
    | none => exact ⟨e, by unfold fieldBody; simp only [hfld, hal]⟩
    | some aliasField =>
      unfold fieldBody
      simp only [hfld, hal, hr, raw_setMsg, List.getElem?_eq_getElem hj]
      exact ⟨_, rfl⟩

/-- One visit of a field keeps the number of fields of every raw message. -/
theorem fieldBody_raw_length {f : File} {i : Nat} {msg : MsgId} {j : Nat}
    {e e1 : Env} (h : fieldBody f i msg j e = some e1) (q : RawId) :
    (e1.raw q).Field.length = (e.raw q).Field.length := by
  obtain ⟨hro, -, hrf⟩ := fieldBody_raw h
  by_cases hq : f.Proto.MessageType[i]? = some q
  · apply length_eq_of_isSome
    intro k
    rw [hrf q k hq]
    by_cases hk : k = j
    · simp [hk]
    · simp [hk]
  · rw [hro q hq]

theorem fieldLoop_succeeds (f : File) (i : Nat) (msg : MsgId) (r : RawId)
    (hr : f.Proto.MessageType[i]? = some r) (n : Nat) :
    ∀ (j : Nat) (e : Env), isAlias e msg = false →
    j + n ≤ (e.raw r).Field.length → ∃ e1, fieldLoop f i msg n j e = some e1 := by
  induction n with
  | zero =>
    intro j e _ _
    exact ⟨e, rfl⟩
  | succ n ih =>
    intro j e hna hlen
    obtain ⟨e2, hb⟩ := fieldBody_succeeds f i msg j e r hr (by omega)
    have hst := fieldBody_stable hb hna
    have hna2 : isAlias e2 msg = false := by rw [hst.isAlias_eq]; exact hna
    have hl2 := fieldBody_raw_length hb r
    obtain ⟨e1, h1⟩ := ih (j + 1) e2 hna2 (by omega)
    exact ⟨e1, by simp only [fieldLoop, hb, h1]⟩

/-- One visit of a message keeps the number of fields of every message and of
every raw message. -/
theorem msgBody_lengths {f : File} {i : Nat} {msg : MsgId} {s s1 : LoopState}
    (h : msgBody f i msg s = some s1) :
    (∀ p, (s1.env.msg p).Fields.length = (s.env.msg p).Fields.length) ∧
    (∀ q, (s1.env.raw q).Field.length = (s.env.raw q).Field.length) := by
  cases ha : isAlias s.env msg with
  | true =>
    rw [msgBody_alias f i msg s ha] at h
    simp only [Option.some.injEq] at h
    subst h
    exact ⟨fun _ => rfl, fun _ => rfl⟩
  | false =>
    obtain ⟨r, -, -, -, -, hst, -, -, hro, hrs⟩ := msgBody_keep ha h
    refine ⟨hst.len, fun q => ?_⟩
    by_cases hq : q = r
    · subst hq
      rw [hrs]
      exact syncFields_length _ _ _
    · rw [hro q hq]

theorem msgBody_succeeds (f : File) (i : Nat) (msg : MsgId) (s : LoopState)
    (r : RawId) (hr : f.Proto.MessageType[i]? = some r)
    (hlen : (s.env.msg msg).Fields.length ≤ (s.env.raw r).Field.length) :
    ∃ s1, msgBody f i msg s = some s1 := by
  cases ha : isAlias s.env msg with
  | true => exact ⟨_, msgBody_alias f i msg s ha⟩
  | false =>
    have hna1 : (getAliasType s.env (some msg)).isSome = false := ha
    obtain ⟨e1, h1⟩ := fieldLoop_succeeds f i msg r hr (s.env.msg msg).Fields.length 0
      s.env ha (by omega)
    unfold msgBody
    simp only [hna1, Bool.false_eq_true, if_false, h1, hr]
    exact ⟨_, rfl⟩

theorem msgLoop_succeeds (f : File) (msgs : List MsgId) :
    ∀ (i : Nat) (s : LoopState),
    (∀ (k : Nat) m, msgs[k]? = some m → ∃ r, f.Proto.MessageType[i + k]? = some r ∧
      (s.env.msg m).Fields.length ≤ (s.env.raw r).Field.length) →
    ∃ s1, msgLoop f msgs i s = some s1 := by
  induction msgs with
  | nil =>
    intro i s _
    exact ⟨s, rfl⟩
  | cons m rest ih =>
    intro i s h
    obtain ⟨r, hr, hlen⟩ := h 0 m (by simp)
    rw [Nat.add_zero] at hr
    obtain ⟨s2, hb⟩ := msgBody_succeeds f i m s r hr hlen
    obtain ⟨hml, hrl⟩ := msgBody_lengths hb
    obtain ⟨s1, h1⟩ := ih (i + 1) s2 (by
      intro k m1 hk
      obtain ⟨r1, hr1, hlen1⟩ := h (k + 1) m1 (by simpa using hk)
      refine ⟨r1, ?_, ?_⟩
      · rw [show i + 1 + k = i + (k + 1) by omega]
        exact hr1
      · rw [hml, hrl]
        exact hlen1)
    exact ⟨s1, by simp only [msgLoop, hb, h1]⟩

/-- On index-aligned mirrors every raw lookup of the pass is in range. -/
theorem resolveFile_succeeds (e : Env) (f : File) (hal : Aligned e f) :
    ∃ e1 f1, resolveFile e f = some (e1, f1) := by
  obtain ⟨s1, h1⟩ := msgLoop_succeeds f f.Messages 0
    { env := e, Aliases := f.Aliases, keepMessages := [], keepMessageTypes := [] }
    (by
      intro k m hk
      have hk1 : k < f.Messages.length := (List.getElem?_eq_some.1 hk).1
      have hk2 : k < f.Proto.MessageType.length := by
        have := hal.1
        omega
      refine ⟨f.Proto.MessageType[k], ?_, ?_⟩
      · rw [Nat.zero_add]
        exact List.getElem?_eq_getElem hk2
      · have hmem : (m, f.Proto.MessageType[k]) ∈
            f.Messages.zip f.Proto.MessageType :=
          (mem_zip_iff_getElem? _ _ _).2 ⟨k, hk, List.getElem?_eq_getElem hk2⟩
        exact Nat.le_of_eq (hal.2 _ hmem))
  refine ⟨s1.env,
    { f with
      Messages := s1.keepMessages
      Aliases := s1.Aliases
      Proto := { MessageType := s1.keepMessageTypes } }, ?_⟩
  simp only [resolveFile, h1]

/-! ## A pass that has nothing to resolve -/

theorem fieldLoop_noop (f : File) (i : Nat) (msg : MsgId) (e : Env)
    (h : ∀ x ∈ (e.msg msg).Fields, getAliasType e x.Message = none) (n : Nat) :
    ∀ j, fieldLoop f i msg n j e = some e := by
  induction n with
  | zero => intro j; rfl
  | succ n ih =>
    intro j
    simp only [fieldLoop]
    rw [fieldBody_skip f i msg j e fun x hx => h x (List.getElem?_mem hx)]
    exact ih (j + 1)

theorem msgLoop_noop (f : File) (msgs : List MsgId) :
    ∀ (i : Nat) (s : LoopState),
    (∀ m ∈ msgs, isAlias s.env m = false ∧
      ∀ x ∈ (s.env.msg m).Fields, getAliasType s.env x.Message = none) →
    i + msgs.length ≤ f.Proto.MessageType.length →
    msgLoop f msgs i s = some
      { s with
        keepMessages := s.keepMessages ++ msgs
        keepMessageTypes :=
          s.keepMessageTypes ++ (f.Proto.MessageType.drop i).take msgs.length } := by
  induction msgs with
  | nil =>
    intro i s _ _
    simp [msgLoop]
  | cons m rest ih =>
    intro i s h hlen
    simp only [List.length_cons] at hlen
    have hi : i < f.Proto.MessageType.length := by omega
    obtain ⟨hna, hfields⟩ := h m (List.mem_cons_self _ _)
    have hna1 : (getAliasType s.env (some m)).isSome = false := hna
    have hr : f.Proto.MessageType[i]? = some f.Proto.MessageType[i] :=
      List.getElem?_eq_getElem hi
    have hbody : msgBody f i m s = some
        { env := s.env
          Aliases := s.Aliases
          keepMessages := s.keepMessages ++ [m]
          keepMessageTypes := s.keepMessageTypes ++ [f.Proto.MessageType[i]] } := by
      unfold msgBody
      simp only [hna1, Bool.false_eq_true, if_false]
      rw [fieldLoop_noop f i m s.env hfields]
      simp only [hr]
    simp only [msgLoop, hbody]
    rw [ih (i + 1)
      { env := s.env
        Aliases := s.Aliases
        keepMessages := s.keepMessages ++ [m]
        keepMessageTypes := s.keepMessageTypes ++ [f.Proto.MessageType[i]] }
      (fun m1 hm1 => h m1 (List.mem_cons_of_mem _ hm1)) (by omega)]
    rw [drop_of_getElem? _ i _ hr]
    simp only [List.append_assoc, List.singleton_append, List.length_cons,
      List.take_succ_cons]

/-- A file whose messages are no aliases and reference no alias, with as many
raw messages as messages, is left as it is. -/
theorem resolveFile_noop (e : Env) (f : File)
    (hlen : f.Messages.length = f.Proto.MessageType.length)
    (h : ∀ m ∈ f.Messages, isAlias e m = false ∧
      ∀ x ∈ (e.msg m).Fields, getAliasType e x.Message = none) :
    resolveFile e f = some (e, f) := by
  unfold resolveFile
  rw [msgLoop_noop f f.Messages 0 _ h (by omega)]
  simp only [List.nil_append, List.drop_zero]
  rw [List.take_of_length_le (Nat.le_of_eq hlen.symm)]

/-- A rewritten field references no alias. -/
theorem getAliasType_rewriteOf (e : Env) (x : Field) :
    getAliasType e (rewriteOf e x).Message = none := by
  cases hx : getAliasType e x.Message with
  | none => rw [rewriteOf_of_none e x hx]; exact hx
  | some y => simp [rewriteOf, hx, rewriteField, getAliasType_none]

/-- The result of a successful pass has nothing left to resolve. -/
theorem resolveFile_idem {e e1 : Env} {f f1 : File}
    (h : resolveFile e f = some (e1, f1)) : resolveFile e1 f1 = some (e1, f1) := by
  obtain ⟨hst, -, -, -, -, hl, hmsg⟩ := resolveFile_spec h
  apply resolveFile_noop e1 f1 hl.symm
  intro m hm
  have hm2 := (mem_survivors h m).1 hm
  refine ⟨by rw [hst.isAlias_eq]; exact hm2.2, fun x hx => ?_⟩
  rw [hmsg m, if_pos hm2] at hx
  simp only [resolvedMsg, List.mem_map] at hx
  obtain ⟨y, -, rfl⟩ := hx
  rw [hst.getAliasType_eq]
  exact getAliasType_rewriteOf e y

/-! ## What is left after the pass -/

/-- After a successful pass no field of a surviving message references an
alias. -/
theorem survivors_reference_no_alias {e e1 : Env} {f f1 : File}
    (h : resolveFile e f = some (e1, f1)) (m : MsgId) (hm : m ∈ f1.Messages)
    (x : Field) (hx : x ∈ (e1.msg m).Fields) :
    getAliasType e1 x.Message = none := by
  obtain ⟨hst, -, -, -, -, -, hmsg⟩ := resolveFile_spec h
  rw [hmsg m, if_pos ((mem_survivors h m).1 hm)] at hx
  simp only [resolvedMsg, List.mem_map] at hx
  obtain ⟨y, -, rfl⟩ := hx
  rw [hst.getAliasType_eq]
  exact getAliasType_rewriteOf e y

/-- A message that is not listed in the file is not written by the pass. -/
theorem resolveFile_msg_frame {e e1 : Env} {f f1 : File}
    (h : resolveFile e f = some (e1, f1)) (p : MsgId) (hp : p ∉ f.Messages) :
    e1.msg p = e.msg p := by
  obtain ⟨-, -, -, -, -, -, hmsg⟩ := resolveFile_spec h
  rw [hmsg p, if_neg (fun hc => hp hc.1)]

/-- A successful pass leaves aligned mirrors aligned. -/
theorem resolveFile_aligned {e e1 : Env} {f f1 : File}
    (h : resolveFile e f = some (e1, f1)) (hal : Aligned e f) : Aligned e1 f1 := by
  obtain ⟨hst, -, -, -, -, hl, -⟩ := resolveFile_spec h
  obtain ⟨hshape, -, -⟩ := resolveFile_raw h
  refine ⟨hl.symm, fun x hx => ?_⟩
  rw [kept_pairs h hal.1, List.mem_filter] at hx
  rw [hst.len, (hshape x.2).2]
  exact hal.2 x hx.1

/-! ## What a pass that completes has found -/

/-- A field loop that completes has found the raw field under every field that
references an alias. -/
theorem fieldLoop_found {f : File} {i : Nat} {msg : MsgId} (n : Nat) :
    ∀ (j0 : Nat) (e e1 : Env), isAlias e msg = false →
    fieldLoop f i msg n j0 e = some e1 →
    ∀ (j : Nat) (F P : Field), j0 ≤ j → j < j0 + n →
      (e.msg msg).Fields[j]? = some F → getAliasType e F.Message = some P →
      ∃ r, f.Proto.MessageType[i]? = some r ∧ j < (e.raw r).Field.length := by
  induction n with
  | zero =>
    intro j0 e e1 _ _ j F P h1 h2
    omega
  | succ n ih =>
    intro j0 e e1 hna h j F P h1 h2 hF hP
    simp only [fieldLoop] at h
    cases hb : fieldBody f i msg j0 e with
    | none => simp [hb] at h
    | some e2 =>
      simp only [hb] at h
      by_cases hj : j = j0
      · subst hj
        obtain ⟨r, fd, hr, hfd⟩ := fieldBody_found hb F P hF hP
        exact ⟨r, hr, (List.getElem?_eq_some.1 hfd).1⟩
      · have hst := fieldBody_stable hb hna
        obtain ⟨-, -, hfld⟩ := fieldBody_sem hb
        have hna2 : isAlias e2 msg = false := by rw [hst.isAlias_eq]; exact hna
        have hF2 : (e2.msg msg).Fields[j]? = some F := by
          rw [hfld j, if_neg hj]
          exact hF
        have hP2 : getAliasType e2 F.Message = some P := by
          rw [hst.getAliasType_eq]
          exact hP
        obtain ⟨r, hr, hlt⟩ := ih (j0 + 1) e2 e1 hna2 h j F P (by omega) (by omega)
          hF2 hP2
        rw [fieldBody_raw_length hb r] at hlt
        exact ⟨r, hr, hlt⟩

/-- A visit of a message that completes has found its raw message and the raw
field under every field that references an alias. -/
theorem msgBody_found {f : File} {i : Nat} {msg : MsgId} {s s1 : LoopState}
    (hna : isAlias s.env msg = false) (h : msgBody f i msg s = some s1) :
    ∃ r, f.Proto.MessageType[i]? = some r ∧
      ∀ (j : Nat) (F P : Field), (s.env.msg msg).Fields[j]? = some F →
        getAliasType s.env F.Message = some P → j < (s.env.raw r).Field.length := by
  unfold msgBody at h
  have hna1 : (getAliasType s.env (some msg)).isSome = false := hna
  simp only [hna1, Bool.false_eq_true, if_false] at h
  cases hl : fieldLoop f i msg (s.env.msg msg).Fields.length 0 s.env with
  | none => simp [hl] at h
  | some e1 =>
    simp only [hl] at h
    cases hr : f.Proto.MessageType[i]? with
    | none => simp [hr] at h
    | some r =>
      refine ⟨r, rfl, fun j F P hF hP => ?_⟩
      have hj : j < (s.env.msg msg).Fields.length := (List.getElem?_eq_some.1 hF).1
      obtain ⟨r1, hr1, hlt⟩ := fieldLoop_found _ 0 s.env e1 hna hl j F P
        (Nat.zero_le _) (by omega) hF hP
      rw [hr] at hr1
      cases hr1
      exact hlt

/-- A loop over the messages that completes has found the raw message of every
message that is not an alias and, when no message is listed twice, the raw
field under every field that references an alias. -/
theorem msgLoop_found {f : File} (msgs : List MsgId) :
    ∀ (i : Nat) (s s1 : LoopState), msgLoop f msgs i s = some s1 →
    ∀ (k : Nat) (m : MsgId), msgs[k]? = some m → isAlias s.env m = false →
    ∃ r, f.Proto.MessageType[i + k]? = some r ∧
      (msgs.Nodup → ∀ (j : Nat) (F P : Field), (s.env.msg m).Fields[j]? = some F →
        getAliasType s.env F.Message = some P →
        j < (s.env.raw r).Field.length) := by
  induction msgs with
  | nil =>
    intro i s s1 _ k m hk
    simp at hk
  | cons m0 rest ih =>
    intro i s s1 h k m hk hna
    simp only [msgLoop] at h
    cases hb : msgBody f i m0 s with
    | none => simp [hb] at h
    | some s2 =>
      simp only [hb] at h
      cases k with
      | zero =>
        simp only [List.getElem?_cons_zero, Option.some.injEq] at hk
        subst hk
        obtain ⟨r, hr, hfound⟩ := msgBody_found hna hb
        exact ⟨r, by rw [Nat.add_zero]; exact hr, fun _ => hfound⟩
      | succ k =>
        simp only [List.getElem?_cons_succ] at hk
        have hstep : (∀ p, isAlias s2.env p = isAlias s.env p) ∧
            (∀ x, getAliasType s2.env x = getAliasType s.env x) ∧
            (m ≠ m0 → s2.env.msg m = s.env.msg m) := by
          cases ha : isAlias s.env m0 with
          | true =>
            rw [msgBody_alias f i m0 s ha] at hb
            simp only [Option.some.injEq] at hb
            subst hb
            exact ⟨fun _ => rfl, fun _ => rfl, fun _ => rfl⟩
          | false =>
            obtain ⟨r, -, -, -, -, hst, hother, -, -, -⟩ := msgBody_keep ha hb
            exact ⟨hst.isAlias_eq, hst.getAliasType_eq, fun hne => hother m hne⟩
        obtain ⟨hali, hget, hsame⟩ := hstep
        obtain ⟨-, hrl⟩ := msgBody_lengths hb
        obtain ⟨r, hr, hfound⟩ := ih (i + 1) s2 s1 h k m hk
          (by rw [hali]; exact hna)
        refine ⟨r, by rw [show i + (k + 1) = i + 1 + k by omega]; exact hr, ?_⟩
        intro hnd j F P hF hP
        have hm0 : m0 ∉ rest := (List.nodup_cons.1 hnd).1
        have hne : m ≠ m0 := by
          intro hc
          apply hm0
          rw [← hc]
          exact List.getElem?_mem hk
        have := hfound (List.nodup_cons.1 hnd).2 j F P
          (by rw [hsame hne]; exact hF) (by rw [hget]; exact hP)
        rw [hrl] at this
        exact this

/-- What a pass that completes has found. -/
theorem resolveFile_found {e e1 : Env} {f f1 : File}
    (h : resolveFile e f = some (e1, f1)) (i : Nat) (m : MsgId)
    (hm : f.Messages[i]? = some m) (hna : isAlias e m = false) :
    ∃ r, f.Proto.MessageType[i]? = some r ∧
      (f.Messages.Nodup → ∀ (j : Nat) (F P : Field), (e.msg m).Fields[j]? = some F →
        getAliasType e F.Message = some P → j < (e.raw r).Field.length) := by
  obtain ⟨s1, hl, -, -⟩ := resolveFile_eq_some h
  obtain ⟨r, hr, hfound⟩ := msgLoop_found _ 0 _ s1 hl i m hm hna
  rw [Nat.zero_add] at hr
  exact ⟨r, hr, hfound⟩

/-! ## Positions in the lists of survivors -/

theorem filter_index {α : Type} (p : α → Bool) :
    ∀ (l : List α) (i : Nat) (a : α), l[i]? = some a → p a = true →
    (l.filter p)[((l.take i).filter p).length]? = some a := by
  intro l
  induction l with
  | nil =>
    intro i a h
    simp at h
  | cons b t ih =>
    intro i a h hp
    cases i with
    | zero =>
      simp only [List.getElem?_cons_zero, Option.some.injEq] at h
      subst h
      simp [List.filter_cons, hp]
    | succ i =>
      simp only [List.getElem?_cons_succ] at h
      have := ih i a h hp
      cases hb : p b with
      | true => simpa [List.filter_cons, hb] using this
      | false => simpa [List.filter_cons, hb] using this

theorem keptRaws_index (e : Env) :
    ∀ (msgs : List MsgId) (raws : List RawId) (i : Nat) (m : MsgId) (q : RawId),
    msgs[i]? = some m → raws[i]? = some q → isAlias e m = false →
    (keptRaws e msgs raws)[((msgs.take i).filter fun x => !isAlias e x).length]? =
      some q := by
  intro msgs
  induction msgs with
  | nil =>
    intro raws i m q h
    simp at h
  | cons b t ih =>
    intro raws i m q hm hq hna
    cases raws with
    | nil => simp at hq
    | cons r rs =>
      cases i with
      | zero =>
        simp only [List.getElem?_cons_zero, Option.some.injEq] at hm hq
        subst hm hq
        rw [keptRaws_cons_keep _ _ _ _ _ hna]
        simp
      | succ i =>
        simp only [List.getElem?_cons_succ] at hm hq
        have := ih rs i m q hm hq hna
        cases hb : isAlias e b with
        | true =>
          rw [keptRaws_cons_alias _ _ _ _ hb]
          simpa [List.filter_cons, hb] using this
        | false =>
          rw [keptRaws_cons_keep _ _ _ _ _ hb]
          simpa [List.filter_cons, hb] using this

theorem resolvedMsg_of_no_fields (e : Env) (m : Message) (h : m.Fields = []) :
    resolvedMsg e m = m := by
  cases m
  simp only [resolvedMsg] at *
  simp [h]

theorem syncedRaw_of_no_fields (e : Env) (rm : DescriptorProto) :
    syncedRaw e [] rm = rm := by
  cases rm
  simp [syncedRaw, syncFields]

/-! ## The loop over the files -/

theorem keptRaws_eq (e : Env) (msgs : List MsgId) (raws : List RawId) :
    keptRaws e msgs raws =
      ((msgs.zip raws).filter fun x => !isAlias e x.1).map Prod.snd := rfl

/-- A raw message that the file does not list is not written by the pass. -/
theorem resolveFile_raw_frame {e e1 : Env} {f f1 : File}
    (h : resolveFile e f = some (e1, f1)) (q : RawId)
    (hq : q ∉ f.Proto.MessageType) : e1.raw q = e.raw q := by
  obtain ⟨-, hframe, -⟩ := resolveFile_raw h
  apply hframe
  intro k m _ _ hc
  exact hq (List.getElem?_mem hc)

/-- What the loop over the files makes of each file and of the objects. -/
theorem filesLoop_spec (files : List File) :
    ∀ (e e1 : Env) (files1 : List File), filesLoop files e = some (e1, files1) →
    Stable e e1 ∧ files1.length = files.length ∧
    (∀ (k : Nat) (f : File), files[k]? = some f →
      ∃ f1, files1[k]? = some f1 ∧
        (f.Generate = false → f1 = f) ∧
        (f.Generate = true →
          f1.Messages = f.Messages.filter (fun m => !isAlias e m) ∧
          f1.Aliases = f.Aliases ++ f.Messages.filter (fun m => isAlias e m) ∧
          f1.Proto.MessageType = keptRaws e f.Messages f.Proto.MessageType)) ∧
    (∀ p, (∀ g ∈ files, g.Generate = true → p ∉ g.Messages) →
      e1.msg p = e.msg p) ∧
    (∀ q, (∀ g ∈ files, g.Generate = true → q ∉ g.Proto.MessageType) →
      e1.raw q = e.raw q) := by
  induction files with
  | nil =>
    intro e e1 files1 h
    simp only [filesLoop, Option.some.injEq, Prod.mk.injEq] at h
    obtain ⟨rfl, rfl⟩ := h
    exact ⟨Stable.refl _, rfl, fun k f hk => by simp at hk, fun _ _ => rfl,
      fun _ _ => rfl⟩
  | cons f rest ih =>
    intro e e1 files1 h
    cases hg : f.Generate with
    | true =>
      simp only [filesLoop, hg, if_true] at h
      cases hr : resolveFile e f with
      | none => simp [hr] at h
      | some r =>
        obtain ⟨e2, f2⟩ := r
        simp only [hr] at h
        cases hl : filesLoop rest e2 with
        | none => simp [hl] at h
        | some r2 =>
          obtain ⟨e3, rest1⟩ := r2
          simp only [hl, Option.some.injEq, Prod.mk.injEq] at h
          obtain ⟨rfl, rfl⟩ := h
          obtain ⟨hst, -, hkm, hal, hkt, -, -⟩ := resolveFile_spec hr
          obtain ⟨hst2, hlen2, hfiles2, hmsg2, hraw2⟩ := ih e2 e3 rest1 hl
          have hali : ∀ p, isAlias e2 p = isAlias e p := hst.isAlias_eq
          have hf1 : (fun m => !isAlias e2 m) = fun m => !isAlias e m :=
            funext fun m => by rw [hali]
          have hf2 : (fun m => isAlias e2 m) = fun m => isAlias e m := funext hali
          refine ⟨hst.trans hst2, by simp [hlen2], fun k g hk => ?_, fun p hp => ?_,
            fun q hq => ?_⟩
          · cases k with
            | zero =>
              simp only [List.getElem?_cons_zero, Option.some.injEq] at hk
              subst hk
              refine ⟨f2, by simp, fun hc => ?_, fun _ => ⟨hkm, hal, hkt⟩⟩
              rw [hg] at hc
              exact Bool.noConfusion hc
            | succ k =>
              simp only [List.getElem?_cons_succ] at hk
              obtain ⟨g1, hg1, hkeep, hgen⟩ := hfiles2 k g hk
              refine ⟨g1, by simpa using hg1, hkeep, fun hc => ?_⟩
              obtain ⟨h1, h2, h3⟩ := hgen hc
              rw [hf1] at h1
              rw [hf2] at h2
              rw [keptRaws_congr e e2 _ _ hali] at h3
              exact ⟨h1, h2, h3⟩
          · rw [hmsg2 p fun g hgm hgg => hp g (List.mem_cons_of_mem _ hgm) hgg]
            exact resolveFile_msg_frame hr p (hp f (List.mem_cons_self _ _) hg)
          · rw [hraw2 q fun g hgm hgg => hq g (List.mem_cons_of_mem _ hgm) hgg]
            exact resolveFile_raw_frame hr q (hq f (List.mem_cons_self _ _) hg)
    | false =>
      simp only [filesLoop, hg, Bool.false_eq_true, if_false] at h
      cases hl : filesLoop rest e with
      | none => simp [hl] at h
      | some r2 =>
        obtain ⟨e3, rest1⟩ := r2
        simp only [hl, Option.some.injEq, Prod.mk.injEq] at h
        obtain ⟨rfl, rfl⟩ := h
        obtain ⟨hst2, hlen2, hfiles2, hmsg2, hraw2⟩ := ih e e3 rest1 hl
        refine ⟨hst2, by simp [hlen2], fun k g hk => ?_, fun p hp => ?_,
          fun q hq => ?_⟩
        · cases k with
          | zero =>
            simp only [List.getElem?_cons_zero, Option.some.injEq] at hk
            subst hk
            refine ⟨f, by simp, fun _ => rfl, fun hc => ?_⟩
            rw [hg] at hc
            exact Bool.noConfusion hc
          | succ k =>
            simp only [List.getElem?_cons_succ] at hk
            obtain ⟨g1, hg1, hkeep, hgen⟩ := hfiles2 k g hk
            exact ⟨g1, by simpa using hg1, hkeep, hgen⟩
        · exact hmsg2 p fun g hgm hgg => hp g (List.mem_cons_of_mem _ hgm) hgg
        · exact hraw2 q fun g hgm hgg => hq g (List.mem_cons_of_mem _ hgm) hgg

theorem callback_eq_ok {plugins : String} {e e1 : Env} {files files1 : List File}
    (h : callback plugins e files = Outcome.ok e1 files1) :
    plugins = "" ∧ filesLoop files e = some (e1, files1) := by
  unfold callback at h
  by_cases hp : plugins = ""
  · refine ⟨hp, ?_⟩
    simp only [hp, ne_eq, not_true_eq_false, if_false] at h
    cases hl : filesLoop files e with
    | none => simp [hl] at h
    | some r =>
      obtain ⟨e2, files2⟩ := r
      simp only [hl, Outcome.ok.injEq] at h
      obtain ⟨rfl, rfl⟩ := h
      rfl
  · simp [hp] at h

/-! ## One position of a surviving message -/

/-- On aligned mirrors in which nothing is listed twice, the field and the raw
field at one position of a surviving message after the pass. -/
theorem resolveFile_position {e e1 : Env} {f f1 : File}
    (h : resolveFile e f = some (e1, f1)) (hal : Aligned e f)
    (hnd : f.Messages.Nodup) (hrnd : f.Proto.MessageType.Nodup)
    (x : MsgId × RawId) (hx : x ∈ f1.Messages.zip f1.Proto.MessageType)
    (j : Nat) (F : Field) (hF : (e.msg x.1).Fields[j]? = some F) :
    ∃ fd, (e.raw x.2).Field[j]? = some fd ∧
      (e1.msg x.1).Fields[j]? = some (rewriteOf e F) ∧
      (e1.raw x.2).Field[j]? = some (rawStep e (some F) fd) ∧
      ∃ i : Nat, f.Messages[i]? = some x.1 ∧ f.Proto.MessageType[i]? = some x.2 := by
  obtain ⟨hna, i, hm, hq⟩ := kept_pair_index h hal.1 x hx
  have hmem : x.1 ∈ f1.Messages :=
    (mem_survivors h x.1).2 ⟨List.getElem?_mem hm, hna⟩
  obtain ⟨fd, hfd⟩ := hal.rawField i x.1 x.2 hm hq j F hF
  refine ⟨fd, hfd, resolveFile_field h x.1 hmem j F hF, ?_, i, hm, hq⟩
  rw [resolveFile_rawField h hnd hrnd i x.1 x.2 hm hna hq j, hfd, hF]
  rfl

/-- A field of a surviving message after the pass comes from the field at the
same index before the pass. -/
theorem resolveFile_field_origin {e e1 : Env} {f f1 : File}
    (h : resolveFile e f = some (e1, f1)) (m : MsgId) (hm : m ∈ f1.Messages)
    (j : Nat) (F1 : Field) (hF1 : (e1.msg m).Fields[j]? = some F1) :
    ∃ F, (e.msg m).Fields[j]? = some F ∧ F1 = rewriteOf e F := by
  rw [resolveFile_fields h m hm j] at hF1
  cases hF : (e.msg m).Fields[j]? with
  | none => simp [hF] at hF1
  | some F =>
    simp only [hF, Option.map_some', Option.some.injEq] at hF1
    exact ⟨F, rfl, hF1.symm⟩

/-! ## The claims -/

/-- C1: `getAliasType` returns the first and only field of a message exactly
when the leading comment of the message contains `protobuf:alias` and the
message has exactly one field; for no message, a comment without the marker,
no field, or two or more fields it returns nothing. -/
theorem getAliasType_contract (e : Env) :
    getAliasType e none = none ∧
    ∀ p : MsgId,
      (∀ x, getAliasType e (some p) = some x ↔
        ("protobuf:alias".data <:+: (e.msg p).Leading.data ∧
          (e.msg p).Fields = [x])) ∧
      (getAliasType e (some p) = none ↔
        ¬ ("protobuf:alias".data <:+: (e.msg p).Leading.data ∧
          (e.msg p).Fields.length = 1)) :=
  ⟨rfl, fun p => ⟨fun x => getAliasType_some_iff e p x, getAliasType_eq_none_iff e p⟩⟩

/-- C2: when the message list and the raw message list of a file have the same
length, a successful pass leaves as message list the input list without the
aliases, in the original order, and as raw message list the raw entries paired
with the kept messages, in the same order: the two lists are the two
projections of the kept pairs and have the same length. -/
theorem survivors_lockstep (e e1 : Env) (f f1 : File)
    (hlen : f.Messages.length = f.Proto.MessageType.length)
    (h : resolveFile e f = some (e1, f1)) :
    f1.Messages = f.Messages.filter (fun m => !isAlias e m) ∧
    f1.Messages =
      ((f.Messages.zip f.Proto.MessageType).filter fun x => !isAlias e x.1).map
        Prod.fst ∧
    f1.Proto.MessageType =
      ((f.Messages.zip f.Proto.MessageType).filter fun x => !isAlias e x.1).map
        Prod.snd ∧
    f1.Proto.MessageType.length = f1.Messages.length := by
  obtain ⟨-, -, hkm, -, hkt, hl, -⟩ := resolveFile_spec h
  refine ⟨hkm, ?_, hkt, hl⟩
  rw [hkm]
  have hfst : (f.Messages.zip f.Proto.MessageType).map Prod.fst = f.Messages :=
    List.map_fst_zip _ _ (Nat.le_of_eq hlen)
  conv_lhs => rw [← hfst]
  rw [List.filter_map]
  rfl

theorem survivors_lockstep_witness :
    scenarioFile1.Messages = [1] ∧ scenarioFile1.Proto.MessageType = [1] ∧
    scenarioFile1.Messages =
      scenarioFile.Messages.filter (fun m => !isAlias scenarioEnv m) :=
  ⟨rfl, rfl,
    (survivors_lockstep scenarioEnv scenarioEnv1 scenarioFile scenarioFile1
      (by decide) (by decide)).1⟩

/-- C3: after a successful pass, a field of a surviving message whose message
was an alias with payload `P` has the kind, cardinality, options, default
value, proto3-optional flag and edition features that `P` had before the pass,
and no oneof. -/
theorem field_takes_payload (e e1 : Env) (f f1 : File)
    (h : resolveFile e f = some (e1, f1)) (m : MsgId) (hm : m ∈ f1.Messages)
    (j : Nat) (F P : Field) (hF : (e.msg m).Fields[j]? = some F)
    (hP : getAliasType e F.Message = some P) :
    ∃ F1, (e1.msg m).Fields[j]? = some F1 ∧
      F1.Desc.Kind = P.Desc.Kind ∧
      F1.Desc.Cardinality = P.Desc.Cardinality ∧
      F1.Desc.Options = P.Desc.Options ∧
      F1.Desc.Default = P.Desc.Default ∧
      F1.Desc.IsProto3Optional = P.Desc.IsProto3Optional ∧
      F1.Desc.EditionFeatures = P.Desc.EditionFeatures ∧
      F1.Oneof = none := by
  refine ⟨rewriteOf e F, resolveFile_field h m hm j F hF, ?_⟩
  simp [rewriteOf, hP, rewriteField]

theorem field_takes_payload_witness :
    ∃ F1, (scenarioEnv1.msg 1).Fields[0]? = some F1 ∧
      F1.Desc.Kind = wrapperValue.Desc.Kind ∧
      F1.Desc.Cardinality = wrapperValue.Desc.Cardinality ∧
      F1.Desc.Options = wrapperValue.Desc.Options ∧
      F1.Desc.Default = wrapperValue.Desc.Default ∧
      F1.Desc.IsProto3Optional = wrapperValue.Desc.IsProto3Optional ∧
      F1.Desc.EditionFeatures = wrapperValue.Desc.EditionFeatures ∧
      F1.Oneof = none :=
  field_takes_payload scenarioEnv scenarioEnv1 scenarioFile scenarioFile1
    (by decide) 1 (by decide) 0 holderW wrapperValue (by decide) (by decide)

/-- C4: after a successful pass, a field of a surviving message whose message
`A` was an alias carries as alias binding the identifier of `A`, the message
that was its type before the rewrite, and carries no message reference any
more; in the Wrapper/Holder scenario `Wrapper` leaves the message list for the
aliases and `Holder.w` ends with kind int32, cardinality optional, no message
reference and the alias binding `Wrapper`. -/
theorem alias_binding_recorded :
    (∀ (e e1 : Env) (f f1 : File), resolveFile e f = some (e1, f1) →
      ∀ m ∈ f1.Messages, ∀ (j : Nat) (F P : Field) (A : MsgId),
        (e.msg m).Fields[j]? = some F → F.Message = some A →
        getAliasType e (some A) = some P →
        ∃ F1, (e1.msg m).Fields[j]? = some F1 ∧
          F1.Alias = some (e.msg A).GoIdent ∧
          F1.Message = none ∧ F1.Desc.Message = none) ∧
    (∃ e1 f1, resolveFile scenarioEnv scenarioFile = some (e1, f1) ∧
      f1.Messages = [1] ∧ f1.Aliases = [0] ∧
      (e1.msg 1).Fields.map
          (fun x => (x.GoName, x.Desc.Kind, x.Desc.Cardinality, x.Message,
            x.Desc.Message, x.Alias)) =
        [("W", Int32Kind, Optional, none, none,
          some { GoName := "Wrapper", GoImportPath := "example/pb" })]) := by
  constructor
  · intro e e1 f f1 h m hm j F P A hF hA hP
    refine ⟨rewriteOf e F, resolveFile_field h m hm j F hF, ?_⟩
    simp only [rewriteOf, hA, hP]
    simp [rewriteField]
  · exact ⟨scenarioEnv1, scenarioFile1, by decide, by decide, by decide, rfl⟩

theorem alias_binding_recorded_witness :
    ∃ F1, (scenarioEnv1.msg 1).Fields[0]? = some F1 ∧
      F1.Alias = some (scenarioEnv.msg 0).GoIdent ∧
      F1.Message = none ∧ F1.Desc.Message = none :=
  alias_binding_recorded.1 scenarioEnv scenarioEnv1 scenarioFile scenarioFile1
    (by decide) 1 (by decide) 0 holderW wrapperValue 0 (by decide) (by decide)
    (by decide)

/-- C5: after a successful pass the aliases of the file are the previous ones
followed by the top-level messages that are aliases, in their original order;
the surviving messages together with the newly recorded aliases are a
rearrangement of the input messages, so every input message is in exactly one
of the two and the two counts add up to the number of input messages. -/
theorem aliases_recorded (e e1 : Env) (f f1 : File)
    (h : resolveFile e f = some (e1, f1)) :
    f1.Aliases = f.Aliases ++ f.Messages.filter (fun m => isAlias e m) ∧
    f1.Messages = f.Messages.filter (fun m => !isAlias e m) ∧
    (f1.Messages ++ f.Messages.filter (fun m => isAlias e m)).Perm f.Messages ∧
    (∀ m ∈ f.Messages,
      (m ∈ f1.Messages ∧ m ∉ f.Messages.filter (fun m => isAlias e m)) ∨
      (m ∉ f1.Messages ∧ m ∈ f.Messages.filter (fun m => isAlias e m))) ∧
    f1.Messages.length + (f.Messages.filter (fun m => isAlias e m)).length =
      f.Messages.length := by
  obtain ⟨-, -, hkm, hal, -, -, -⟩ := resolveFile_spec h
  have hperm : (f.Messages.filter (fun m => !isAlias e m) ++
      f.Messages.filter (fun m => isAlias e m)).Perm f.Messages :=
    List.perm_append_comm.trans (List.filter_append_perm (fun m => isAlias e m) _)
  refine ⟨hal, hkm, ?_, fun m hm => ?_, ?_⟩
  · rw [hkm]; exact hperm
  · rw [hkm]
    simp only [List.mem_filter]
    cases ha : isAlias e m <;> simp [hm]
  · rw [hkm]
    have := hperm.length_eq
    simpa using this

theorem aliases_recorded_witness :
    scenarioFile1.Aliases = [0] ∧
    scenarioFile1.Aliases = scenarioFile.Aliases ++
      scenarioFile.Messages.filter (fun m => isAlias scenarioEnv m) :=
  ⟨rfl,
    (aliases_recorded scenarioEnv scenarioEnv1 scenarioFile scenarioFile1
      (by decide)).1⟩

/-- C6: on index-aligned mirrors in which no message and no raw message is
listed twice the pass completes, and the raw field at position `(i, j)` of the
input raw message list, under a field that referenced an alias with payload
`P`, then has as type code the number of the new kind of the field, which is
the number of the kind of `P`, and has no type-name reference. -/
theorem raw_type_synchronized (e : Env) (f : File) (hal : Aligned e f)
    (hnd : f.Messages.Nodup) (hrnd : f.Proto.MessageType.Nodup) (i j : Nat)
    (m : MsgId) (q : RawId) (F P : Field) (hm : f.Messages[i]? = some m)
    (hna : isAlias e m = false) (hq : f.Proto.MessageType[i]? = some q)
    (hF : (e.msg m).Fields[j]? = some F)
    (hP : getAliasType e F.Message = some P) :
    ∃ e1 f1, resolveFile e f = some (e1, f1) ∧
      ∃ F1 fd1, (e1.msg m).Fields[j]? = some F1 ∧
        (e1.raw q).Field[j]? = some fd1 ∧
        F1.Desc.Kind = P.Desc.Kind ∧
        fd1.Type_ = some F1.Desc.Kind ∧
        fd1.Type_ = some P.Desc.Kind ∧
        fd1.TypeName = none := by
  obtain ⟨e1, f1, h⟩ := resolveFile_succeeds e f hal
  refine ⟨e1, f1, h, ?_⟩
  obtain ⟨fd, hfd⟩ := hal.rawField i m q hm hq j F hF
  have hmem : m ∈ f1.Messages :=
    (mem_survivors h m).2 ⟨List.mem_iff_getElem?.2 ⟨i, hm⟩, hna⟩
  have hk : (rewriteOf e F).Desc.Kind = P.Desc.Kind := by
    simp [rewriteOf, hP, rewriteField]
  refine ⟨rewriteOf e F, syncRawField (rewriteOf e F).Desc fd,
    resolveFile_field h m hmem j F hF, ?_, hk, syncRawField_code _ _, ?_,
    syncRawField_typeName _ _⟩
  · rw [resolveFile_rawField h hnd hrnd i m q hm hna hq j, hfd, hF]
    simp [rawStep, hP]
  · rw [syncRawField_code, hk]

theorem raw_type_synchronized_witness :
    ∃ e1 f1, resolveFile scenarioEnv scenarioFile = some (e1, f1) ∧
      ∃ F1 fd1, (e1.msg 1).Fields[0]? = some F1 ∧
        (e1.raw 1).Field[0]? = some fd1 ∧
        F1.Desc.Kind = 5 ∧ fd1.Type_ = some 5 ∧ fd1.TypeName = none := by
  obtain ⟨e1, f1, h, F1, fd1, h1, h2, h3, -, h5, h6⟩ :=
    raw_type_synchronized scenarioEnv scenarioFile (by decide) (by decide)
      (by decide) 1 0 1 1 holderW wrapperValue (by decide) (by decide)
      (by decide) (by decide) (by decide)
  exact ⟨e1, f1, h, F1, fd1, h1, h2, h3, h5, h6⟩

/-- C7, as stated, fails: in `nestedFile` the mirrors are aligned and
consistent and nothing is listed twice, yet after the pass `Outer.w` is of kind
message while the raw field under it has no type-name reference. -/
theorem raw_consistency_counterexample :
    ¬ (∀ (e e1 : Env) (f f1 : File), Aligned e f → f.Messages.Nodup →
        f.Proto.MessageType.Nodup → Consistent e f →
        resolveFile e f = some (e1, f1) → Consistent e1 f1) := by
  intro H
  have hc := H nestedEnv nestedEnv1 nestedFile nestedFile1 (by decide) (by decide)
    (by decide) (by decide) (by decide)
  revert hc
  decide

/-- C7, amended: on aligned, consistent mirrors in which nothing is listed
twice the pass completes, and at every position `(i, j)` of a surviving message
the raw field is then as follows. Under a field that referenced no alias the
field and the raw field are the ones of before the pass and are consistent.
Under a field that referenced an alias with payload `P` the raw type code is
the number of the kind of `P` and the type-name reference is absent, which is
consistent exactly when the kind of `P` is scalar. So every position after the
pass is consistent except those rewritten from a message-, group- or
enum-typed payload, and the mirrors are consistent when no such payload is
copied. -/
theorem raw_consistency_positions (e : Env) (f : File) (hal : Aligned e f)
    (hnd : f.Messages.Nodup) (hrnd : f.Proto.MessageType.Nodup)
    (hc : Consistent e f) :
    ∃ e1 f1, resolveFile e f = some (e1, f1) ∧
      (∀ x ∈ f1.Messages.zip f1.Proto.MessageType, ∀ (j : Nat) (F : Field),
        (e.msg x.1).Fields[j]? = some F →
        ∃ fd F1 fd1, (e.raw x.2).Field[j]? = some fd ∧
          (e1.msg x.1).Fields[j]? = some F1 ∧
          (e1.raw x.2).Field[j]? = some fd1 ∧
          (getAliasType e F.Message = none →
            F1 = F ∧ fd1 = fd ∧ specConsistent e1 F1 fd1 = true) ∧
          (∀ P, getAliasType e F.Message = some P →
            F1.Desc.Kind = P.Desc.Kind ∧ F1.Message = none ∧ F1.Enum = none ∧
            fd1.Type_ = some P.Desc.Kind ∧ fd1.TypeName = none ∧
            (specConsistent e1 F1 fd1 = true ↔ scalarKind P.Desc.Kind))) ∧
      (∀ x ∈ f1.Messages.zip f1.Proto.MessageType,
        ∀ (j : Nat) (F1 : Field) (fd1 : FieldDescriptorProto),
        (e1.msg x.1).Fields[j]? = some F1 → (e1.raw x.2).Field[j]? = some fd1 →
        specConsistent e1 F1 fd1 = true ∨
          ∃ F P, (e.msg x.1).Fields[j]? = some F ∧
            getAliasType e F.Message = some P ∧ ¬ scalarKind P.Desc.Kind) ∧
      ((∀ m ∈ f1.Messages, ∀ F ∈ (e.msg m).Fields, ∀ P,
          getAliasType e F.Message = some P → scalarKind P.Desc.Kind) →
        Consistent e1 f1) := by
  obtain ⟨e1, f1, h⟩ := resolveFile_succeeds e f hal
  have hpos : ∀ x ∈ f1.Messages.zip f1.Proto.MessageType, ∀ (j : Nat) (F : Field),
      (e.msg x.1).Fields[j]? = some F →
      ∃ fd F1 fd1, (e.raw x.2).Field[j]? = some fd ∧
        (e1.msg x.1).Fields[j]? = some F1 ∧
        (e1.raw x.2).Field[j]? = some fd1 ∧
        (getAliasType e F.Message = none →
          F1 = F ∧ fd1 = fd ∧ specConsistent e1 F1 fd1 = true) ∧
        (∀ P, getAliasType e F.Message = some P →
          F1.Desc.Kind = P.Desc.Kind ∧ F1.Message = none ∧ F1.Enum = none ∧
          fd1.Type_ = some P.Desc.Kind ∧ fd1.TypeName = none ∧
          (specConsistent e1 F1 fd1 = true ↔ scalarKind P.Desc.Kind)) := by
    intro x hx j F hF
    obtain ⟨fd, hfd, hF1, hfd1, i, hm, hq⟩ :=
      resolveFile_position h hal hnd hrnd x hx j F hF
    refine ⟨fd, rewriteOf e F, rawStep e (some F) fd, hfd, hF1, hfd1, ?_, ?_⟩
    · intro hno
      have hpre : specConsistent e F fd = true :=
        hc x ((mem_zip_iff_getElem? _ _ _).2 ⟨i, hm, hq⟩) (F, fd)
          ((mem_zip_iff_getElem? _ _ _).2 ⟨j, hF, hfd⟩)
      have hrs : rawStep e (some F) fd = fd := by simp [rawStep, hno]
      rw [rewriteOf_of_none e F hno, hrs]
      exact ⟨rfl, rfl, by
        rw [specConsistent_congr e e1 (resolveFile_fullName h)]; exact hpre⟩
    · intro P hP
      have hrw : rewriteOf e F =
          rewriteField F P (F.Message.map fun a => (e.msg a).GoIdent) := by
        simp [rewriteOf, hP]
      have hrs : rawStep e (some F) fd = syncRawField (rewriteOf e F).Desc fd := by
        simp [rawStep, hP]
      rw [hrs, hrw]
      refine ⟨rfl, rfl, rfl, ?_, syncRawField_typeName _ _,
        specConsistent_rewritten_iff e1 F P _ fd⟩
      rw [syncRawField_code]
      rfl
  have hafter : ∀ x ∈ f1.Messages.zip f1.Proto.MessageType,
      ∀ (j : Nat) (F1 : Field) (fd1 : FieldDescriptorProto),
      (e1.msg x.1).Fields[j]? = some F1 → (e1.raw x.2).Field[j]? = some fd1 →
      specConsistent e1 F1 fd1 = true ∨
        ∃ F P, (e.msg x.1).Fields[j]? = some F ∧
          getAliasType e F.Message = some P ∧ ¬ scalarKind P.Desc.Kind := by
    intro x hx j F1 fd1 hF1 hfd1
    obtain ⟨hna, i, hm, -⟩ := kept_pair_index h hal.1 x hx
    have hmem : x.1 ∈ f1.Messages :=
      (mem_survivors h x.1).2 ⟨List.getElem?_mem hm, hna⟩
    obtain ⟨F, hF, -⟩ := resolveFile_field_origin h x.1 hmem j F1 hF1
    obtain ⟨fd, G1, gd1, -, hG1, hgd1, hnone, hsome⟩ := hpos x hx j F hF
    rw [hF1] at hG1
    rw [hfd1] at hgd1
    cases hG1
    cases hgd1
    cases hP : getAliasType e F.Message with
    | none => exact Or.inl (hnone hP).2.2
    | some P =>
      by_cases hs : scalarKind P.Desc.Kind
      · exact Or.inl ((hsome P hP).2.2.2.2.2.2 hs)
      · exact Or.inr ⟨F, P, hF, hP, hs⟩
  refine ⟨e1, f1, h, hpos, hafter, ?_⟩
  intro hscalar x hx y hy
  obtain ⟨j, hy1, hy2⟩ := (mem_zip_iff_getElem? _ _ _).1 hy
  rcases hafter x hx j y.1 y.2 hy1 hy2 with hok | ⟨F, P, hF, hP, hs⟩
  · exact hok
  · obtain ⟨hna, i, hm, -⟩ := kept_pair_index h hal.1 x hx
    have hmem : x.1 ∈ f1.Messages :=
      (mem_survivors h x.1).2 ⟨List.getElem?_mem hm, hna⟩
    exact absurd (hscalar x.1 hmem F (List.getElem?_mem hF) P hP) hs

theorem raw_consistency_positions_witness :
    ∃ e1 f1, resolveFile nestedEnv nestedFile = some (e1, f1) ∧
      (∃ fd F1 fd1, (nestedEnv.raw 0).Field[0]? = some fd ∧
        (e1.msg 0).Fields[0]? = some F1 ∧ (e1.raw 0).Field[0]? = some fd1 ∧
        F1 = innerN ∧ fd1 = fd ∧ specConsistent e1 F1 fd1 = true) ∧
      (∃ F1 fd1, (e1.msg 2).Fields[0]? = some F1 ∧
        (e1.raw 2).Field[0]? = some fd1 ∧
        F1.Desc.Kind = 11 ∧ fd1.Type_ = some 11 ∧ fd1.TypeName = none ∧
        specConsistent e1 F1 fd1 = false) := by
  obtain ⟨e1, f1, h, hpos, -, -⟩ := raw_consistency_positions nestedEnv nestedFile
    (by decide) (by decide) (by decide) (by decide)
  have hrun : resolveFile nestedEnv nestedFile = some (nestedEnv1, nestedFile1) := by
    decide
  have hf1 : f1 = nestedFile1 := by
    rw [hrun] at h
    simp only [Option.some.injEq, Prod.mk.injEq] at h
    exact h.2.symm
  subst hf1
  refine ⟨e1, nestedFile1, h, ?_, ?_⟩
  · obtain ⟨fd, F1, fd1, h1, h2, h3, hnone, -⟩ :=
      hpos (0, 0) (by decide) 0 innerN (by decide)
    obtain ⟨h4, h5, h6⟩ := hnone (by decide)
    exact ⟨fd, F1, fd1, h1, h2, h3, h4, h5, h6⟩
  · obtain ⟨fd, F1, fd1, -, h2, h3, -, hsome⟩ :=
      hpos (2, 2) (by decide) 0 outerW (by decide)
    obtain ⟨h4, -, -, h7, h8, h9⟩ := hsome innerAliasValue (by decide)
    refine ⟨F1, fd1, h2, h3, h4, h7, h8, ?_⟩
    cases hsc : specConsistent e1 F1 fd1 with
    | false => rfl
    | true =>
      have hk := h9.1 hsc
      exact absurd hk (by unfold scalarKind; decide)

/-- C8, as stated, fails: in `nestedFile` the payload of `InnerAlias` is of kind
message and references `Inner`, yet after the pass `Outer.w` carries no message
reference at all. -/
theorem payload_reference_counterexample :
    ¬ (∀ (e e1 : Env) (f f1 : File), resolveFile e f = some (e1, f1) →
        ∀ m ∈ f1.Messages, ∀ (j : Nat) (F P : Field) (A : MsgId),
          (e.msg m).Fields[j]? = some F → F.Message = some A →
          getAliasType e (some A) = some P →
          ∃ F1, (e1.msg m).Fields[j]? = some F1 ∧
            (P.Desc.Kind = MessageKind ∨ P.Desc.Kind = EnumKind →
              F1.Message = P.Message ∧ F1.Enum = P.Enum) ∧
            (scalarKind P.Desc.Kind → F1.Message = none ∧ F1.Enum = none)) := by
  intro H
  obtain ⟨F1, hF1, hk, -⟩ := H nestedEnv nestedEnv1 nestedFile nestedFile1
    (by decide) 2 (by decide) 0 outerW innerAliasValue 1 (by decide) (by decide)
    (by decide)
  have h2 : (nestedEnv1.msg 2).Fields[0]? = some outerW1 := by decide
  rw [h2] at hF1
  cases hF1
  exact absurd (hk (Or.inl rfl)).1 (by decide)

/-- C8, amended: after a successful pass, a field of a surviving message that
referenced an alias `A` with payload `P` has the kind of `P` and carries no
message and no enum reference, neither on the field nor on its descriptor,
whatever the kind of `P`; so it never points at `A`. -/
theorem references_cleared (e e1 : Env) (f f1 : File)
    (h : resolveFile e f = some (e1, f1)) (m : MsgId) (hm : m ∈ f1.Messages)
    (j : Nat) (F P : Field) (A : MsgId) (hF : (e.msg m).Fields[j]? = some F)
    (hA : F.Message = some A) (hP : getAliasType e (some A) = some P) :
    ∃ F1, (e1.msg m).Fields[j]? = some F1 ∧
      F1.Desc.Kind = P.Desc.Kind ∧
      F1.Message = none ∧ F1.Enum = none ∧
      F1.Desc.Message = none ∧ F1.Desc.Enum = none ∧
      F1.Message ≠ some A := by
  refine ⟨rewriteOf e F, resolveFile_field h m hm j F hF, ?_⟩
  simp only [rewriteOf, hA, hP]
  simp [rewriteField]

theorem references_cleared_witness :
    ∃ F1, (nestedEnv1.msg 2).Fields[0]? = some F1 ∧
      F1.Desc.Kind = innerAliasValue.Desc.Kind ∧
      F1.Message = none ∧ F1.Enum = none ∧
      F1.Desc.Message = none ∧ F1.Desc.Enum = none ∧
      F1.Message ≠ some 1 :=
  references_cleared nestedEnv nestedEnv1 nestedFile nestedFile1 (by decide) 2
    (by decide) 0 outerW innerAliasValue 1 (by decide) (by decide) (by decide)

/-- C9, the code at the failing input: `Holder.w` is declared deprecated, both
in its descriptor and in the raw field, and the payload `Wrapper.value` has no
options. After the pass the field has no options, while the raw field still
carries the options it had before. -/
theorem raw_options_stale :
    ∃ e1 f1, resolveFile deprecatedEnv scenarioFile = some (e1, f1) ∧
      (e1.msg 1).Fields.map (fun x => x.Desc.Options) = [none] ∧
      (e1.raw 1).Field.map (fun x => x.Options) = [some deprecatedOptions] := by
  refine ⟨_, _, rfl, ?_, ?_⟩ <;> decide

/-- C10, as stated, fails: `importingFile` has no alias among its messages,
its field `Holder.w` references the alias `Wrapper` of another file, and the
pass rewrites it; `longRawFile` has no alias anywhere, and the pass drops its
last raw message. -/
theorem noop_counterexample :
    ¬ (∀ (e : Env) (f : File), (∀ m ∈ f.Messages, isAlias e m = false) →
        resolveFile e f = some (e, f)) ∧
    ¬ (∀ (e : Env) (f : File),
        (∀ m ∈ f.Messages, isAlias e m = false ∧
          ∀ x ∈ (e.msg m).Fields, getAliasType e x.Message = none) →
        resolveFile e f = some (e, f)) := by
  constructor
  · intro H
    have h := H scenarioEnv importingFile (by decide)
    revert h
    decide
  · intro H
    have h := H plainEnv longRawFile (by decide)
    revert h
    decide

/-- C10, amended: the pass is idempotent, a second run on the result of a
successful run succeeds and returns the same objects and the same file; and
the pass leaves as they are the objects and the file when the file lists as
many raw messages as messages, none of its messages is an alias and none of
their fields references an alias. -/
theorem resolve_idempotent :
    (∀ (e e1 : Env) (f f1 : File), resolveFile e f = some (e1, f1) →
      resolveFile e1 f1 = some (e1, f1)) ∧
    (∀ (e : Env) (f : File),
      f.Messages.length = f.Proto.MessageType.length →
      (∀ m ∈ f.Messages, isAlias e m = false ∧
        ∀ x ∈ (e.msg m).Fields, getAliasType e x.Message = none) →
      resolveFile e f = some (e, f)) :=
  ⟨fun _ _ _ _ h => resolveFile_idem h, resolveFile_noop⟩

theorem resolve_idempotent_witness :
    resolveFile scenarioEnv1 scenarioFile1 = some (scenarioEnv1, scenarioFile1) :=
  resolve_idempotent.1 scenarioEnv scenarioEnv1 scenarioFile scenarioFile1
    (by decide)

/-- C11: after a successful pass no field of a surviving message references a
message for which `getAliasType` returns a field: a field that referenced an
alias has no message reference any more, a field that did not keeps its
reference, and every message reference that is left points at a message that
is not an alias. -/
theorem no_alias_reference_left (e e1 : Env) (f f1 : File)
    (h : resolveFile e f = some (e1, f1)) (m : MsgId) (hm : m ∈ f1.Messages) :
    (∀ x ∈ (e1.msg m).Fields, getAliasType e1 x.Message = none ∧
      ∀ a, x.Message = some a → isAlias e1 a = false ∧ isAlias e a = false) ∧
    (∀ (j : Nat) (F : Field), (e.msg m).Fields[j]? = some F →
      ∃ F1, (e1.msg m).Fields[j]? = some F1 ∧
        ((getAliasType e F.Message).isSome = true → F1.Message = none) ∧
        (getAliasType e F.Message = none → F1.Message = F.Message)) := by
  obtain ⟨hst, -, -, -, -, -, -⟩ := resolveFile_spec h
  constructor
  · intro x hx
    have hn := survivors_reference_no_alias h m hm x hx
    refine ⟨hn, fun a ha => ?_⟩
    rw [ha] at hn
    have h1 : isAlias e1 a = false := (isAlias_eq_false_iff e1 a).2 hn
    exact ⟨h1, by rw [← hst.isAlias_eq]; exact h1⟩
  · intro j F hF
    refine ⟨rewriteOf e F, resolveFile_field h m hm j F hF, ?_, ?_⟩
    · intro hs
      cases hP : getAliasType e F.Message with
      | none => rw [hP] at hs; exact Bool.noConfusion hs
      | some P => simp [rewriteOf, hP, rewriteField]
    · intro hn
      rw [rewriteOf_of_none e F hn]

theorem no_alias_reference_left_witness :
    (∀ x ∈ (scenarioEnv1.msg 1).Fields, getAliasType scenarioEnv1 x.Message = none ∧
      ∀ a, x.Message = some a →
        isAlias scenarioEnv1 a = false ∧ isAlias scenarioEnv a = false) ∧
    (∀ (j : Nat) (F : Field), (scenarioEnv.msg 1).Fields[j]? = some F →
      ∃ F1, (scenarioEnv1.msg 1).Fields[j]? = some F1 ∧
        ((getAliasType scenarioEnv F.Message).isSome = true → F1.Message = none) ∧
        (getAliasType scenarioEnv F.Message = none → F1.Message = F.Message)) :=
  no_alias_reference_left scenarioEnv scenarioEnv1 scenarioFile scenarioFile1
    (by decide) 1 (by decide)

/-- C13: index alignment is preserved. When the file lists as many raw messages
as messages and each message has as many fields as the raw message at the same
index, the pass completes, the surviving messages and raw messages are, pair
by pair and in order, the pairs of before the pass whose message is not an
alias, no field count has changed, and the result is index-aligned again. -/
theorem alignment_preserved (e : Env) (f : File) (hal : Aligned e f) :
    ∃ e1 f1, resolveFile e f = some (e1, f1) ∧
      Aligned e1 f1 ∧
      f1.Messages.zip f1.Proto.MessageType =
        ((f.Messages.zip f.Proto.MessageType).filter fun x => !isAlias e x.1) ∧
      (∀ p, (e1.msg p).Fields.length = (e.msg p).Fields.length) ∧
      (∀ q, (e1.raw q).Field.length = (e.raw q).Field.length) := by
  obtain ⟨e1, f1, h⟩ := resolveFile_succeeds e f hal
  obtain ⟨hst, -, -, -, -, -, -⟩ := resolveFile_spec h
  obtain ⟨hshape, -, -⟩ := resolveFile_raw h
  exact ⟨e1, f1, h, resolveFile_aligned h hal, kept_pairs h hal.1, hst.len,
    fun q => (hshape q).2⟩

theorem alignment_preserved_witness :
    ∃ e1 f1, resolveFile scenarioEnv scenarioFile = some (e1, f1) ∧
      Aligned e1 f1 ∧
      f1.Messages.zip f1.Proto.MessageType =
        ((scenarioFile.Messages.zip scenarioFile.Proto.MessageType).filter
          fun x => !isAlias scenarioEnv x.1) ∧
      (∀ p, (e1.msg p).Fields.length = (scenarioEnv.msg p).Fields.length) ∧
      (∀ q, (e1.raw q).Field.length = (scenarioEnv.raw q).Field.length) :=
  alignment_preserved scenarioEnv scenarioFile (by decide)

/-- C15: on index-aligned mirrors, as many raw messages as messages and for
every message as many raw fields as fields, every lookup
`f.Proto.MessageType[msgIdx]` and `.Field[fieldIdx]` of the pass is in range:
the pass returns a result instead of panicking. -/
theorem aligned_pass_completes (e : Env) (f : File) (hal : Aligned e f) :
    (resolveFile e f).isSome = true ∧ ∃ e1 f1, resolveFile e f = some (e1, f1) := by
  obtain ⟨e1, f1, h⟩ := resolveFile_succeeds e f hal
  exact ⟨by rw [h]; rfl, e1, f1, h⟩

theorem aligned_pass_completes_witness :
    (resolveFile nestedEnv nestedFile).isSome = true ∧
      ∃ e1 f1, resolveFile nestedEnv nestedFile = some (e1, f1) :=
  aligned_pass_completes nestedEnv nestedFile (by decide)

/-- C16: the pass never writes an alias or its payload. After a successful pass
a message `A` with `getAliasType A = P` is the same object as before, fields
included, and `getAliasType A` is still `P`; when no raw message is listed
twice, the raw message at the index of `A` is unchanged as well; and the
messages after the pass do not depend on the order in which the file lists
its messages. -/
theorem alias_untouched (e e1 : Env) (f f1 : File)
    (h : resolveFile e f = some (e1, f1)) (A : MsgId) (P : Field)
    (hA : getAliasType e (some A) = some P) :
    e1.msg A = e.msg A ∧ (e1.msg A).Fields = [P] ∧
    getAliasType e1 (some A) = some P ∧
    (f.Proto.MessageType.Nodup → ∀ (i : Nat) (q : RawId),
      f.Messages[i]? = some A → f.Proto.MessageType[i]? = some q →
      e1.raw q = e.raw q) ∧
    (∀ (g g1 : File) (e2 : Env), g.Messages.Perm f.Messages →
      resolveFile e g = some (e2, g1) → ∀ p, e2.msg p = e1.msg p) := by
  obtain ⟨hst, -, -, -, -, -, hmsg⟩ := resolveFile_spec h
  obtain ⟨-, hframe, -⟩ := resolveFile_raw h
  have hal : isAlias e A = true := (isAlias_eq_true_iff e A).2 ⟨P, hA⟩
  have hsame : e1.msg A = e.msg A := hst.fixed A hal
  refine ⟨hsame, ?_, ?_, ?_, ?_⟩
  · rw [hsame]
    exact ((getAliasType_some_iff e A P).1 hA).2
  · rw [hst.getAliasType_eq]
    exact hA
  · intro hrnd i q hi hq
    apply hframe
    intro k m hk hna hc
    have hki : k = i := by
      have hk1 := (List.getElem?_eq_some.1 hc).1
      have hi1 := (List.getElem?_eq_some.1 hq).1
      have h1 : f.Proto.MessageType[k] = q := (List.getElem?_eq_some.1 hc).2
      have h2 : f.Proto.MessageType[i] = q := (List.getElem?_eq_some.1 hq).2
      exact (List.Nodup.getElem_inj_iff hrnd).1 (h1.trans h2.symm)
    subst hki
    rw [hi] at hk
    cases hk
    rw [hal] at hna
    exact Bool.noConfusion hna
  · intro g g1 e2 hperm hg p
    obtain ⟨-, -, -, -, -, -, hmsg2⟩ := resolveFile_spec hg
    rw [hmsg2 p, hmsg p]
    have hiff : p ∈ g.Messages ↔ p ∈ f.Messages := hperm.mem_iff
    simp only [hiff]

theorem alias_untouched_witness :
    scenarioEnv1.msg 0 = scenarioEnv.msg 0 ∧
    (scenarioEnv1.msg 0).Fields = [wrapperValue] ∧
    getAliasType scenarioEnv1 (some 0) = some wrapperValue ∧
    (scenarioFile.Proto.MessageType.Nodup → ∀ (i : Nat) (q : RawId),
      scenarioFile.Messages[i]? = some 0 →
      scenarioFile.Proto.MessageType[i]? = some q →
      scenarioEnv1.raw q = scenarioEnv.raw q) ∧
    (∀ (g g1 : File) (e2 : Env), g.Messages.Perm scenarioFile.Messages →
      resolveFile scenarioEnv g = some (e2, g1) →
      ∀ p, e2.msg p = scenarioEnv1.msg p) :=
  alias_untouched scenarioEnv scenarioEnv1 scenarioFile scenarioFile1 (by decide)
    0 wrapperValue (by decide)

/-- C18: the pass changes nothing about a field that references no alias.
After a successful pass a field of a surviving message whose message reference
is absent or points at a message that is not an alias is the same field as
before; and when no message and no raw message is listed twice, the raw field
at the same position is the same raw field as before. -/
theorem other_fields_untouched (e e1 : Env) (f f1 : File)
    (h : resolveFile e f = some (e1, f1)) (i j : Nat) (m : MsgId) (F : Field)
    (hm : f.Messages[i]? = some m) (hna : isAlias e m = false)
    (hF : (e.msg m).Fields[j]? = some F)
    (hno : getAliasType e F.Message = none) :
    m ∈ f1.Messages ∧ (e1.msg m).Fields[j]? = some F ∧
    (f.Messages.Nodup → f.Proto.MessageType.Nodup →
      ∀ (q : RawId) (fd : FieldDescriptorProto),
        f.Proto.MessageType[i]? = some q → (e.raw q).Field[j]? = some fd →
        (e1.raw q).Field[j]? = some fd) := by
  have hmem : m ∈ f1.Messages :=
    (mem_survivors h m).2 ⟨List.getElem?_mem hm, hna⟩
  refine ⟨hmem, ?_, ?_⟩
  · rw [resolveFile_field h m hmem j F hF, rewriteOf_of_none e F hno]
  · intro hnd hrnd q fd hq hfd
    rw [resolveFile_rawField h hnd hrnd i m q hm hna hq j, hfd, hF]
    simp [rawStep, hno]

theorem other_fields_untouched_witness :
    0 ∈ nestedFile1.Messages ∧ (nestedEnv1.msg 0).Fields[0]? = some innerN ∧
    (nestedFile.Messages.Nodup → nestedFile.Proto.MessageType.Nodup →
      ∀ (q : RawId) (fd : FieldDescriptorProto),
        nestedFile.Proto.MessageType[0]? = some q →
        (nestedEnv.raw q).Field[0]? = some fd →
        (nestedEnv1.raw q).Field[0]? = some fd) :=
  other_fields_untouched nestedEnv nestedEnv1 nestedFile nestedFile1 (by decide)
    0 0 0 innerN (by decide) (by decide) (by decide) (by decide)

/-- C12: a top-level message `M` whose leading comment contains the marker but
whose number of fields is not 1 is no error. `getAliasType` returns nothing for
it; on aligned mirrors the pass completes; and after a successful pass `M` is
in the list of survivors at the position given by the survivors before it,
with its raw message at the same position, and is not among the newly recorded
aliases. When `M` has no field at all it is the same object as before, and so
is its raw message when nothing is listed twice. -/
theorem malformed_candidate_kept (e : Env) (f : File) (i : Nat) (M : MsgId)
    (hM : f.Messages[i]? = some M)
    (hmark : "protobuf:alias".data <:+: (e.msg M).Leading.data)
    (hcount : (e.msg M).Fields.length ≠ 1) :
    getAliasType e (some M) = none ∧
    (Aligned e f → ∃ e1 f1, resolveFile e f = some (e1, f1)) ∧
    (∀ (e1 : Env) (f1 : File), resolveFile e f = some (e1, f1) →
      f1.Messages[((f.Messages.take i).filter fun m => !isAlias e m).length]? =
        some M ∧
      (∃ q, f.Proto.MessageType[i]? = some q ∧
        f1.Proto.MessageType[
          ((f.Messages.take i).filter fun m => !isAlias e m).length]? = some q) ∧
      M ∉ f.Messages.filter (fun m => isAlias e m) ∧
      f1.Aliases = f.Aliases ++ f.Messages.filter (fun m => isAlias e m) ∧
      ((e.msg M).Fields = [] →
        e1.msg M = e.msg M ∧
        (f.Messages.Nodup → f.Proto.MessageType.Nodup →
          ∀ q, f.Proto.MessageType[i]? = some q → e1.raw q = e.raw q))) := by
  have hnone : getAliasType e (some M) = none :=
    (getAliasType_eq_none_iff e M).2 fun hc => hcount hc.2
  have hna : isAlias e M = false := (isAlias_eq_false_iff e M).2 hnone
  have hmark1 := hmark
  refine ⟨hnone, fun hal => resolveFile_succeeds e f hal, fun e1 f1 h => ?_⟩
  obtain ⟨-, -, hkm, hal, hkt, -, hmsg⟩ := resolveFile_spec h
  obtain ⟨q, hq, -⟩ := resolveFile_found h i M hM hna
  refine ⟨?_, ⟨q, hq, ?_⟩, ?_, hal, fun hf => ⟨?_, fun hnd hrnd q1 hq1 => ?_⟩⟩
  · rw [hkm]
    exact filter_index (fun m => !isAlias e m) f.Messages i M hM (by simp [hna])
  · rw [hkt]
    exact keptRaws_index e f.Messages f.Proto.MessageType i M q hM hq hna
  · intro hc
    rw [List.mem_filter, hna] at hc
    exact Bool.noConfusion hc.2
  · rw [hmsg M, if_pos ⟨List.getElem?_mem hM, hna⟩]
    exact resolvedMsg_of_no_fields e _ hf
  · obtain ⟨-, -, hsync⟩ := resolveFile_raw h
    rw [hsync hnd hrnd i M q1 hM hna hq1, hf]
    exact syncedRaw_of_no_fields e _

theorem malformed_candidate_kept_witness :
    getAliasType emptyEnv (some 2) = none ∧
    ∃ e1 f1, resolveFile emptyEnv emptyFile = some (e1, f1) ∧
      f1.Messages[1]? = some 2 ∧ f1.Proto.MessageType[1]? = some 2 ∧
      f1.Aliases = [0] ∧ e1.msg 2 = emptyEnv.msg 2 ∧ e1.raw 2 = emptyEnv.raw 2 := by
  obtain ⟨h0, hrun, hkept⟩ := malformed_candidate_kept emptyEnv emptyFile 2 2
    (by decide) (by decide) (by decide)
  obtain ⟨e1, f1, h⟩ := hrun (by decide)
  obtain ⟨h1, ⟨q, hq, h2⟩, -, h4, h5⟩ := hkept e1 f1 h
  have hk : ((emptyFile.Messages.take 2).filter
      fun m => !isAlias emptyEnv m).length = 1 := by decide
  have hq2 : emptyFile.Proto.MessageType[2]? = some 2 := by decide
  rw [hk] at h1 h2
  rw [hq2] at hq
  cases hq
  obtain ⟨h6, h7⟩ := h5 (by decide)
  exact ⟨h0, e1, f1, h, h1, h2, by rw [h4]; decide, h6,
    h7 (by decide) (by decide) 2 hq2⟩

/-- C14: when a top-level message that is not an alias, listed once, has no raw
message at its index, or has a field that references an alias while the raw
message at its index has no field at the index of that field, the pass does
not skip the position: it panics, no lists of survivors are produced, and the
loop over the files of the plugin stops at this file. -/
theorem diverged_mirrors_abort (e : Env) (f : File) (hnd : f.Messages.Nodup)
    (i : Nat) (m : MsgId) (hm : f.Messages[i]? = some m)
    (hna : isAlias e m = false)
    (hbad : f.Proto.MessageType[i]? = none ∨
      ∃ (q : RawId) (j : Nat) (F P : Field), f.Proto.MessageType[i]? = some q ∧
        (e.msg m).Fields[j]? = some F ∧ getAliasType e F.Message = some P ∧
        (e.raw q).Field[j]? = none) :
    resolveFile e f = none ∧
    (f.Generate = true → ∀ rest, filesLoop (f :: rest) e = none) := by
  have hnone : resolveFile e f = none := by
    cases h : resolveFile e f with
    | none => rfl
    | some r =>
      obtain ⟨e1, f1⟩ := r
      obtain ⟨r, hr, hfound⟩ := resolveFile_found h i m hm hna
      rcases hbad with hb | ⟨q, j, F, P, hq, hF, hP, hfd⟩
      · rw [hb] at hr
        cases hr
      · rw [hq] at hr
        cases hr
        have hlt := hfound hnd j F P hF hP
        rw [List.getElem?_eq_getElem hlt] at hfd
        cases hfd
  refine ⟨hnone, fun hg rest => ?_⟩
  simp [filesLoop, hg, hnone]

theorem diverged_mirrors_abort_witness :
    resolveFile divergedEnv scenarioFile = none ∧
    (scenarioFile.Generate = true →
      ∀ rest, filesLoop (scenarioFile :: rest) divergedEnv = none) :=
  diverged_mirrors_abort divergedEnv scenarioFile (by decide) 1 1 (by decide)
    (by decide)
    (Or.inr ⟨1, 0, holderW, wrapperValue, by decide, by decide, by decide,
      by decide⟩)

/-- C17: alias resolution is one level deep. When a field `F` of a surviving
message references an alias `A` whose payload `P` itself references a second
alias `B` with payload `Q`, after a successful pass `F` carries the kind,
cardinality, options and default of `P`, its alias binding is the identifier
of `A`, and `P` is still the payload of `A`, still referencing `B`. In the
chain `ChainHolder.w → WrapperAlias → Wrapper` the field `w` ends repeated, of
kind message and deprecated as `P` is, not optional and of kind int32 as `Q`
is, with the alias binding `WrapperAlias`. -/
theorem one_level_only :
    (∀ (e e1 : Env) (f f1 : File), resolveFile e f = some (e1, f1) →
      ∀ m ∈ f1.Messages, ∀ (j : Nat) (F P Q : Field) (A B : MsgId),
        (e.msg m).Fields[j]? = some F → F.Message = some A →
        getAliasType e (some A) = some P → P.Message = some B →
        getAliasType e (some B) = some Q →
        ∃ F1, (e1.msg m).Fields[j]? = some F1 ∧
          F1.Desc.Kind = P.Desc.Kind ∧
          F1.Desc.Cardinality = P.Desc.Cardinality ∧
          F1.Desc.Options = P.Desc.Options ∧
          F1.Desc.Default = P.Desc.Default ∧
          F1.Alias = some (e.msg A).GoIdent ∧
          (e1.msg A).Fields = [P] ∧
          getAliasType e1 (some A) = some P ∧
          getAliasType e1 (some B) = some Q) ∧
    (∃ e1 f1, resolveFile chainEnv chainFile = some (e1, f1) ∧
      f1.Messages = [2] ∧ f1.Aliases = [0, 1] ∧
      (e1.msg 2).Fields.map
          (fun x => (x.Desc.Kind, x.Desc.Cardinality, x.Desc.Options, x.Alias)) =
        [(MessageKind, Repeated, some deprecatedOptions,
          some { GoName := "WrapperAlias", GoImportPath := "example/pb" })] ∧
      (wrapperValue.Desc.Kind, wrapperValue.Desc.Cardinality,
          wrapperValue.Desc.Options) = (Int32Kind, Optional, none) ∧
      (e1.msg 1).Fields = [chainPayload] ∧ chainPayload.Message = some 0) := by
  constructor
  · intro e e1 f f1 h m hm j F P Q A B hF hA hP hB hQ
    obtain ⟨hst, -, -, -, -, -, -⟩ := resolveFile_spec h
    have hal : isAlias e A = true := (isAlias_eq_true_iff e A).2 ⟨P, hP⟩
    refine ⟨rewriteOf e F, resolveFile_field h m hm j F hF, ?_⟩
    have hfix : (e1.msg A).Fields = [P] := by
      rw [hst.fixed A hal]
      exact ((getAliasType_some_iff e A P).1 hP).2
    have hA1 : getAliasType e1 (some A) = some P := by
      rw [hst.getAliasType_eq]; exact hP
    have hB1 : getAliasType e1 (some B) = some Q := by
      rw [hst.getAliasType_eq]; exact hQ
    simp only [rewriteOf, hA, hP]
    simp [rewriteField, hfix, hA1, hB1]
  · refine ⟨_, _, rfl, ?_, ?_, ?_, ?_, ?_, ?_⟩
    · decide
    · decide
    · rfl
    · rfl
    · decide
    · rfl

theorem one_level_only_witness :
    ∃ e1 f1, resolveFile chainEnv chainFile = some (e1, f1) ∧
      ∃ F1, (e1.msg 2).Fields[0]? = some F1 ∧
        F1.Desc.Kind = chainPayload.Desc.Kind ∧
        F1.Desc.Cardinality = chainPayload.Desc.Cardinality ∧
        F1.Desc.Options = chainPayload.Desc.Options ∧
        F1.Desc.Default = chainPayload.Desc.Default ∧
        F1.Alias = some (chainEnv.msg 1).GoIdent ∧
        (e1.msg 1).Fields = [chainPayload] ∧
        getAliasType e1 (some 1) = some chainPayload ∧
        getAliasType e1 (some 0) = some wrapperValue := by
  obtain ⟨e1, f1, h⟩ := resolveFile_succeeds chainEnv chainFile (by decide)
  have hm : 2 ∈ f1.Messages := (mem_survivors h 2).2 (by decide)
  exact ⟨e1, f1, h,
    one_level_only.1 chainEnv e1 chainFile f1 h 2 hm 0 chainHolderW chainPayload
      wrapperValue 1 0 (by decide) (by decide) (by decide) (by decide)
      (by decide)⟩

/-- C19: the pass rewrites only fields owned by the top-level messages of the
file. After a successful pass a message `N` declared inside a surviving message
and not itself listed by the file is the same object as before, with every
field and every message reference it had, and is still declared inside that
message. In the scenario `Holder.Detail.d` still references the alias `Wrapper`
after the pass, while `Holder.w` has been rewritten. -/
theorem nested_fields_untouched :
    (∀ (e e1 : Env) (f f1 : File), resolveFile e f = some (e1, f1) →
      ∀ m ∈ f1.Messages, ∀ N ∈ (e.msg m).Messages, N ∉ f.Messages →
        (e1.msg m).Messages = (e.msg m).Messages ∧
        e1.msg N = e.msg N ∧
        ∀ x ∈ (e.msg N).Fields, x ∈ (e1.msg N).Fields ∧
          getAliasType e1 x.Message = getAliasType e x.Message) ∧
    (∃ e1 f1, resolveFile nestingEnv scenarioFile = some (e1, f1) ∧
      f1.Messages = [1] ∧ (e1.msg 1).Messages = [2] ∧
      (e1.msg 1).Fields.map (fun x => x.Message) = [none] ∧
      (e1.msg 2).Fields = [detailD] ∧ detailD.Message = some 0 ∧
      getAliasType e1 detailD.Message = some wrapperValue) := by
  constructor
  · intro e e1 f f1 h m hm N _ hN
    obtain ⟨hst, -, -, -, -, -, hmsg⟩ := resolveFile_spec h
    have hsame : e1.msg N = e.msg N := resolveFile_msg_frame h N hN
    refine ⟨?_, hsame, fun x hx => ⟨by rw [hsame]; exact hx, hst.getAliasType_eq _⟩⟩
    rw [hmsg m, if_pos ((mem_survivors h m).1 hm)]
    rfl
  · refine ⟨_, _, rfl, ?_, ?_, ?_, ?_, ?_, ?_⟩ <;> decide

theorem nested_fields_untouched_witness :
    ∃ e1 f1, resolveFile nestingEnv scenarioFile = some (e1, f1) ∧
      (e1.msg 1).Messages = (nestingEnv.msg 1).Messages ∧
      e1.msg 2 = nestingEnv.msg 2 ∧
      ∀ x ∈ (nestingEnv.msg 2).Fields, x ∈ (e1.msg 2).Fields ∧
        getAliasType e1 x.Message = getAliasType nestingEnv x.Message := by
  obtain ⟨e1, f1, h⟩ := resolveFile_succeeds nestingEnv scenarioFile (by decide)
  have hm : 1 ∈ f1.Messages := (mem_survivors h 1).2 (by decide)
  exact ⟨e1, f1, h,
    nested_fields_untouched.1 nestingEnv e1 scenarioFile f1 h 1 hm 2 (by decide)
      (by decide)⟩

/-- C20: files not marked for generation are untouched. When the callback
returns normally there are as many files as before; a file with
`Generate = false` is the same file as before, with its message list, its raw
message list and its aliases, whatever aliases it declares or references, and
its messages and raw messages are the same objects as before provided no
generated file lists them too; and the lists of a generated file are determined
by its own input lists, the survivors and aliases among its own messages,
whatever other files are processed. -/
theorem ungenerated_files_untouched (plugins : String) (e e1 : Env)
    (files files1 : List File)
    (h : callback plugins e files = Outcome.ok e1 files1) :
    files1.length = files.length ∧
    (∀ (k : Nat) (f : File), files[k]? = some f → f.Generate = false →
      files1[k]? = some f ∧
      ((∀ g ∈ files, g.Generate = true → ∀ p ∈ f.Messages, p ∉ g.Messages) →
        ∀ p ∈ f.Messages, e1.msg p = e.msg p) ∧
      ((∀ g ∈ files, g.Generate = true →
          ∀ q ∈ f.Proto.MessageType, q ∉ g.Proto.MessageType) →
        ∀ q ∈ f.Proto.MessageType, e1.raw q = e.raw q)) ∧
    (∀ (k : Nat) (f : File), files[k]? = some f → f.Generate = true →
      ∃ f1, files1[k]? = some f1 ∧
        f1.Messages = f.Messages.filter (fun m => !isAlias e m) ∧
        f1.Aliases = f.Aliases ++ f.Messages.filter (fun m => isAlias e m) ∧
        f1.Proto.MessageType =
          ((f.Messages.zip f.Proto.MessageType).filter
            fun x => !isAlias e x.1).map Prod.snd) := by
  obtain ⟨-, hl⟩ := callback_eq_ok h
  obtain ⟨-, hlen, hfiles, hmsg, hraw⟩ := filesLoop_spec files e e1 files1 hl
  refine ⟨hlen, fun k f hk hg => ?_, fun k f hk hg => ?_⟩
  · obtain ⟨f1, hf1, hkeep, -⟩ := hfiles k f hk
    rw [hkeep hg] at hf1
    exact ⟨hf1, fun hd p hp => hmsg p fun g hgm hgg => hd g hgm hgg p hp,
      fun hd q hq => hraw q fun g hgm hgg => hd g hgm hgg q hq⟩
  · obtain ⟨f1, hf1, -, hgen⟩ := hfiles k f hk
    obtain ⟨h1, h2, h3⟩ := hgen hg
    exact ⟨f1, hf1, h1, h2, h3⟩

theorem ungenerated_files_untouched_witness :
    [importedFile, otherFile][0]? = some importedFile ∧
    (∀ p ∈ importedFile.Messages, twoFilesEnv1.msg p = twoFilesEnv.msg p) ∧
    (∀ q ∈ importedFile.Proto.MessageType, twoFilesEnv1.raw q = twoFilesEnv.raw q) ∧
    isAlias twoFilesEnv1 0 = true ∧
    (twoFilesEnv1.msg 1).Fields.map (fun x => x.Message) = [some 0] := by
  obtain ⟨h1, h2, h3⟩ :=
    (ungenerated_files_untouched "" twoFilesEnv twoFilesEnv1
      [importedFile, otherFile] [importedFile, otherFile] (by decide)).2.1 0
      importedFile (by decide) (by decide)
  exact ⟨h1, h2 (by decide), h3 (by decide), by decide, by decide⟩

end AliasResolution
